import Mathlib

/-!
Verification of the `vg` vector-geometry command module
(`src/p5/02_M/M_1_4_01/sketch.js`, second document: the Object
creation / manipulation commands file).

JavaScript numbers are embedded as exact rationals (`ℚ`); fallible code
paths (thrown `TypeError`s and explicit `throw new Error(...)` calls)
are embedded with `Except`.  The object modules the commands file
requires (`Point`, `Rect`, `Path` methods, `Transform`, `util/math`,
`util/random`, `util/geo`, the Clipper engine) are not part of the
sources and are modelled from the specification; each such definition
carries a doc comment starting with `Modelled from the spec:`.
-/

namespace VG

/-- JavaScript runtime failures of the embedded code: a `TypeError`
(property access or construction on `undefined`) or an explicit
`throw new Error(...)` with a message. -/
inductive JsErr : Type
  | typeError : JsErr
  | invalidScope : JsErr
  | invalidPathCommand : JsErr
  | unknownCommand : JsErr
  | unknownMethod : JsErr
deriving DecidableEq, Repr

/-- A JavaScript argument slot that distinguishes `undefined`, `null`
and an actual value (`vg.delete` tests `=== null` specifically). -/
inductive JsArg (α : Type) : Type
  | undef : JsArg α
  | jsnull : JsArg α
  | val : α → JsArg α
deriving DecidableEq, Repr

/-- Modelled from the spec: the `Point` object module (objects/point):
an immutable (x, y) pair. -/
structure Point : Type where
  x : ℚ
  y : ℚ
deriving DecidableEq, Repr

/-- Modelled from the spec: the `Point.ZERO` sentinel used as the
default origin. -/
def Point.ZERO : Point := ⟨0, 0⟩

/-- Modelled from the spec: the `Rect` object module (objects/rect):
(x, y, width, height). -/
structure Rect : Type where
  x : ℚ
  y : ℚ
  width : ℚ
  height : ℚ
deriving DecidableEq, Repr

/-- Modelled from the spec: `new Rect()` with no arguments — the zero
rect at the origin. -/
def Rect.empty : Rect := ⟨0, 0, 0, 0⟩

/-- Modelled from the spec: `Rect.unite` — the smallest rect covering
both operands. -/
def Rect.unite (r s : Rect) : Rect :=
  let nx := min r.x s.x
  let ny := min r.y s.y
  ⟨nx, ny, max (r.x + r.width) (s.x + s.width) - nx,
    max (r.y + r.height) (s.y + s.height) - ny⟩

/-- Modelled from the spec: `Rect.contains` — point containment with
inclusive edges, so boundary-touching points count as inside. -/
def Rect.contains (r : Rect) (px py : ℚ) : Bool :=
  decide (r.x ≤ px) && decide (px ≤ r.x + r.width) &&
  decide (r.y ≤ py) && decide (py ≤ r.y + r.height)

/-- Modelled from the spec: `Rect.centerPoint`. -/
def Rect.centerPoint (r : Rect) : Point :=
  ⟨r.x + r.width / 2, r.y + r.height / 2⟩

/-- Modelled from the spec: the `Color` object module: an RGB value
used only as a fill/stroke attribute. -/
structure Color : Type where
  r : ℚ
  g : ℚ
  b : ℚ
deriving DecidableEq, Repr

/-- The path-command vocabulary of the bezier collaborator:
MOVETO/LINETO/QUADTO/CURVETO carry an endpoint, QUADTO one control
point, CURVETO two, CLOSE none. -/
inductive Cmd : Type
  | moveto (x y : ℚ)
  | lineto (x y : ℚ)
  | quadto (x1 y1 x y : ℚ)
  | curveto (x1 y1 x2 y2 x y : ℚ)
  | close
deriving DecidableEq, Repr

mutual
/-- The duck-typed JavaScript value space the `vg` operations dispatch
over: a point-like object (has x/y, no width/height), a rect-like
object (has x/y/width/height), a color (has r/g/b), a `Path` (has
`.commands` plus fill/stroke/strokeWidth), a `Group` (has `.shapes`),
or a JavaScript array of further values. -/
inductive Shape : Type
  | point (x y : ℚ) : Shape
  | rectObj (x y w h : ℚ) : Shape
  | color (c : Color) : Shape
  | path (cmds : List Cmd) (fill stroke : Option Color) (strokeWidth : ℚ) : Shape
  | group (shapes : ShapeList) : Shape
  | array (items : ShapeList) : Shape

/-- A JavaScript array of shapes (kept as a mutual inductive so every
recursive operation is structurally recursive and kernel-reducible). -/
inductive ShapeList : Type
  | nil : ShapeList
  | cons (s : Shape) (rest : ShapeList) : ShapeList
end

mutual
def Shape.beq : Shape → Shape → Bool
  | .point x y, .point x' y' => decide (x = x') && decide (y = y')
  | .rectObj x y w h, .rectObj x' y' w' h' =>
      decide (x = x') && decide (y = y') && decide (w = w') && decide (h = h')
  | .color c, .color c' => decide (c = c')
  | .path cs f st sw, .path cs' f' st' sw' =>
      decide (cs = cs') && decide (f = f') && decide (st = st') && decide (sw = sw')
  | .group l, .group l' => ShapeList.beq l l'
  | .array l, .array l' => ShapeList.beq l l'
  | _, _ => false

def ShapeList.beq : ShapeList → ShapeList → Bool
  | .nil, .nil => true
  | .cons s l, .cons s' l' => Shape.beq s s' && ShapeList.beq l l'
  | _, _ => false
end

mutual
theorem Shape.beq_iff_eq_shape : ∀ a b : Shape, Shape.beq a b = true ↔ a = b
  | .point x y, b => by
    cases b <;> simp [Shape.beq]
  | .rectObj x y w h, b => by
    cases b <;> simp [Shape.beq, and_assoc]
  | .color c, b => by
    cases b <;> simp [Shape.beq]
  | .path cs f st sw, b => by
    cases b <;> simp [Shape.beq, and_assoc]
  | .group l, b => by
    cases b <;> simp [Shape.beq, ShapeList.beq_iff_eq_shapeList l]
  | .array l, b => by
    cases b <;> simp [Shape.beq, ShapeList.beq_iff_eq_shapeList l]

theorem ShapeList.beq_iff_eq_shapeList : ∀ a b : ShapeList, ShapeList.beq a b = true ↔ a = b
  | .nil, b => by cases b <;> simp [ShapeList.beq]
  | .cons s l, b => by
    cases b <;> simp [ShapeList.beq, Shape.beq_iff_eq_shape s, ShapeList.beq_iff_eq_shapeList l]
end

instance : DecidableEq Shape := fun a b =>
  decidable_of_iff (Shape.beq a b = true) (Shape.beq_iff_eq_shape a b)

instance : DecidableEq ShapeList := fun a b =>
  decidable_of_iff (ShapeList.beq a b = true) (ShapeList.beq_iff_eq_shapeList a b)

/-- Length of a shape list (the JavaScript `.length` of an array). -/
def ShapeList.length : ShapeList → ℕ
  | .nil => 0
  | .cons _ l => l.length + 1

/-- Convert a Lean list of shapes into the embedded array payload. -/
def ShapeList.ofList : List Shape → ShapeList
  | [] => .nil
  | s :: l => .cons s (ShapeList.ofList l)

/-- A JavaScript array of point objects, the raw point-list shape
variant. -/
def pointArray (pts : List Point) : Shape :=
  .array (ShapeList.ofList (pts.map fun p => .point p.x p.y))

/-- `shape[0].x !== undefined && shape[0].y !== undefined`: the duck
test for the point-array variant (true for point-like and rect-like
objects, which both expose x and y). -/
def Shape.hasXY : Shape → Bool
  | .point _ _ => true
  | .rectObj _ _ _ _ => true
  | _ => false

/-- The x property of a value that passed the `hasXY` probe. -/
def Shape.getX : Shape → ℚ
  | .point x _ => x
  | .rectObj x _ _ _ => x
  | _ => 0

/-- The y property of a value that passed the `hasXY` probe. -/
def Shape.getY : Shape → ℚ
  | .point _ y => y
  | .rectObj _ y _ _ => y
  | _ => 0

/-- `Array.isArray(shape) && shape.length > 0 && shape[0].x !== undefined`:
the guard selecting the point-array branch of the dispatchers. -/
def isPointArray : Shape → Bool
  | .array (.cons s _) => s.hasXY
  | _ => false

/-- `o.r !== undefined && o.g !== undefined && o.b !== undefined`: the
duck test for a color value. -/
def Shape.hasRGB : Shape → Bool
  | .color _ => true
  | _ => false

/-!  ## bounds  -/

/-- The coordinate points carried by one path command (endpoint and
control points; CLOSE carries none). -/
def Cmd.coords : Cmd → List Point
  | .moveto x y => [⟨x, y⟩]
  | .lineto x y => [⟨x, y⟩]
  | .quadto x1 y1 x y => [⟨x1, y1⟩, ⟨x, y⟩]
  | .curveto x1 y1 x2 y2 x y => [⟨x1, y1⟩, ⟨x2, y2⟩, ⟨x, y⟩]
  | .close => []

/-- All coordinate points of a command list, in order. -/
def coordsOf : List Cmd → List Point
  | [] => []
  | c :: rest => c.coords ++ coordsOf rest

/-- The minimal axis-aligned rect enclosing a nonempty point set, given
as a head point and the remaining points. -/
def rectOfPoints (p : Point) (ps : List Point) : Rect :=
  let xmin := ps.foldl (fun a q => min a q.x) p.x
  let ymin := ps.foldl (fun a q => min a q.y) p.y
  let xmax := ps.foldl (fun a q => max a q.x) p.x
  let ymax := ps.foldl (fun a q => max a q.y) p.y
  ⟨xmin, ymin, xmax - xmin, ymax - ymin⟩

/-- Modelled from the spec: `Path.bounds()` (objects/path is not in the
sources) — the minimal axis-aligned rectangle enclosing the path,
computed over all command coordinates; an empty path yields the zero
rect at the origin. -/
def pathBounds (cmds : List Cmd) : Rect :=
  match coordsOf cmds with
  | [] => Rect.empty
  | p :: ps => rectOfPoints p ps

mutual
/-- `vg.bounds` on a defined (non-undefined) value, following the
source's branch order: objects with a `bounds` method (paths, groups),
then x/y objects (with or without width/height), then color objects —
whose branch constructs `new vg.Rect(0, 0, 30, 30)` and therefore
throws, since no `Rect` property is ever installed on the `vg` module —
then arrays (color arrays get a fixed swatch rect, other arrays union
their children's bounds, the empty array yields the zero rect). -/
def bounds : Shape → Except JsErr Rect
  | .path cmds _ _ _ => .ok (pathBounds cmds)
  | .group l => boundsList l none
  | .point x y => .ok ⟨x, y, 0, 0⟩
  | .rectObj x y w h => .ok ⟨x, y, w, h⟩
  | .color _ => .error .typeError
  | .array .nil => boundsList .nil none
  | .array (.cons s rest) =>
      if s.hasRGB then .ok ⟨0, 0, ((ShapeList.cons s rest).length : ℚ) * 30, 30⟩
      else boundsList (.cons s rest) none
termination_by structural s => s

/-- The `r = null; for (...) r = r ? r.unite(bounds(o[i])) : bounds(o[i])`
accumulation loop of `vg.bounds` over an array (also used, modelled
from the spec, as `Group.bounds()`: the union of the children's
bounds). -/
def boundsList : ShapeList → Option Rect → Except JsErr Rect
  | .nil, none => .ok Rect.empty
  | .nil, some r => .ok r
  | .cons s l, acc =>
      match bounds s with
      | .error e => .error e
      | .ok rs =>
          boundsList l (some (match acc with
            | none => rs
            | some r => r.unite rs))
termination_by structural l => l
end

instance {ε α : Type} [DecidableEq ε] [DecidableEq α] :
    DecidableEq (Except ε α) := fun a b =>
  match a, b with
  | .ok x, .ok y => decidable_of_iff (x = y) (by simp)
  | .error x, .error y => decidable_of_iff (x = y) (by simp)
  | .ok _, .error _ => isFalse (by simp)
  | .error _, .ok _ => isFalse (by simp)

/-- `vg.bounds` including the `if (!o) return new Rect();` guard for a
missing argument. -/
def boundsArg : Option Shape → Except JsErr Rect
  | none => .ok Rect.empty
  | some s => bounds s

/-- The bounds of every shape of a list, provided none of them throws. -/
def boundsAll : List Shape → Option (List Rect)
  | [] => some []
  | s :: l =>
      match bounds s, boundsAll l with
      | .ok r, some rs => some (r :: rs)
      | _, _ => none

/-- The pointwise min/max union of a nonempty list of rects: least x/y
corner and greatest far corner over all of them. -/
def unionRects (r : Rect) (rs : List Rect) : Rect :=
  let xmin := rs.foldl (fun a q => min a q.x) r.x
  let ymin := rs.foldl (fun a q => min a q.y) r.y
  let xmax := rs.foldl (fun a q => max a (q.x + q.width)) (r.x + r.width)
  let ymax := rs.foldl (fun a q => max a (q.y + q.height)) (r.y + r.height)
  ⟨xmin, ymin, xmax - xmin, ymax - ymin⟩

theorem unite_x (r s : Rect) : (r.unite s).x = min r.x s.x := rfl

theorem unite_y (r s : Rect) : (r.unite s).y = min r.y s.y := rfl

theorem unite_right (r s : Rect) :
    (r.unite s).x + (r.unite s).width = max (r.x + r.width) (s.x + s.width) := by
  simp [Rect.unite]

theorem unite_bottom (r s : Rect) :
    (r.unite s).y + (r.unite s).height = max (r.y + r.height) (s.y + s.height) := by
  simp [Rect.unite]

/-- Folding `unite` down a rect list computes the pointwise min/max
union. -/
theorem foldl_unite_eq_unionRects (rs : List Rect) (r : Rect) :
    rs.foldl Rect.unite r = unionRects r rs := by
  induction rs generalizing r with
  | nil => simp [unionRects]
  | cons s l ih =>
    rw [List.foldl_cons, ih]
    simp only [unionRects]
    rw [unite_right, unite_bottom, unite_x, unite_y]
    simp [List.foldl_cons]

/-- The array accumulation loop of `vg.bounds` is the `unite` fold over
the children's bounds. -/
theorem boundsList_eq_foldl (l : List Shape) (rs : List Rect)
    (h : boundsAll l = some rs) (acc : Rect) :
    boundsList (ShapeList.ofList l) (some acc) = .ok (rs.foldl Rect.unite acc) := by
  induction l generalizing rs acc with
  | nil =>
    simp [boundsAll] at h
    subst h
    rfl
  | cons s t ih =>
    simp only [boundsAll] at h
    rcases hs : bounds s with e | r
    · rw [hs] at h; exact absurd h (by simp)
    · rw [hs] at h
      rcases ht : boundsAll t with _ | ts
      · rw [ht] at h; exact absurd h (by simp)
      · rw [ht] at h
        simp only [Option.some.injEq] at h
        subst h
        show boundsList (.cons s (ShapeList.ofList t)) (some acc) = _
        rw [boundsList, hs]
        exact ih ts ht (acc.unite r)

/-- Claim C4: `vg.bounds` of an array of shapes is the union of the
children's bounds (for a non-color array whose children's bounds all
succeed), an empty array yields the zero rect at the origin, a single
point yields a zero-size rect at that point, and concretely the point
array [(0,0),(4,0),(4,3),(0,3)] has bounds Rect(0,0,4,3). -/
theorem bounds_union_C4 :
    (∀ (hd : Shape) (l : List Shape) (r0 : Rect) (rs : List Rect),
        hd.hasRGB = false → boundsAll (hd :: l) = some (r0 :: rs) →
        bounds (.array (ShapeList.ofList (hd :: l))) = .ok (unionRects r0 rs))
    ∧ bounds (.array .nil) = .ok Rect.empty
    ∧ (∀ x y : ℚ, bounds (.point x y) = .ok ⟨x, y, 0, 0⟩)
    ∧ bounds (pointArray [⟨0, 0⟩, ⟨4, 0⟩, ⟨4, 3⟩, ⟨0, 3⟩]) = .ok ⟨0, 0, 4, 3⟩ := by
  refine ⟨?_, rfl, fun x y => rfl, by
    norm_num [pointArray, ShapeList.ofList, bounds, boundsList, Rect.unite,
      Rect.empty, Shape.hasRGB]⟩
  intro hd l r0 rs hrgb hall
  simp only [boundsAll] at hall
  rcases hh : bounds hd with e | r
  · rw [hh] at hall; exact absurd hall (by simp)
  · rw [hh] at hall
    rcases ht : boundsAll l with _ | ts
    · rw [ht] at hall; exact absurd hall (by simp)
    · rw [ht] at hall
      simp only [Option.some.injEq, List.cons.injEq] at hall
      obtain ⟨hr0, hrs⟩ := hall
      show bounds (.array (.cons hd (ShapeList.ofList l))) = _
      rw [bounds, if_neg (by simp [hrgb])]
      rw [boundsList, hh]
      show boundsList (ShapeList.ofList l) (some r) = _
      rw [boundsList_eq_foldl l ts ht r, foldl_unite_eq_unionRects, hr0, hrs]

/-- Witness for claim C4's union conjunct at a concrete two-point
array. -/
theorem bounds_union_C4_witness :
    bounds (.array (ShapeList.ofList [Shape.point 1 2, Shape.point 5 9]))
      = .ok (unionRects ⟨1, 2, 0, 0⟩ [⟨5, 9, 0, 0⟩]) :=
  bounds_union_C4.1 (Shape.point 1 2) [Shape.point 5 9] ⟨1, 2, 0, 0⟩
    [⟨5, 9, 0, 0⟩] (by decide) (by decide)

/-- Claim C10: `vg.bounds` of a single color value (an object with r, g
and b fields) throws instead of returning a rect: its branch constructs
`new vg.Rect(0, 0, 30, 30)` but no `Rect` property is ever defined on
the `vg` module, so the construction is a `TypeError`. -/
theorem bounds_color_throws_C10 :
    ∀ c : Color, bounds (.color c) = .error .typeError :=
  fun _ => rfl

/-!  ## Transform and the transform-dispatch operations  -/

/-- Modelled from the spec: the `Transform` object module — an affine
transform, kept as the matrix (a b c d tx ty) mapping (x, y) to
(a·x + c·y + tx, b·x + d·y + ty); `translate`/`scale` post-compose, so
the operation appended last is applied to the point first. -/
structure Transform : Type where
  a : ℚ
  b : ℚ
  c : ℚ
  d : ℚ
  tx : ℚ
  ty : ℚ
deriving DecidableEq, Repr

/-- `new Transform()`: the identity transform. -/
def Transform.identity : Transform := ⟨1, 0, 0, 1, 0, 0⟩

/-- Apply a transform to a coordinate pair. -/
def Transform.apply (t : Transform) (x y : ℚ) : Point :=
  ⟨t.a * x + t.c * y + t.tx, t.b * x + t.d * y + t.ty⟩

/-- `t.translate(dx, dy)`: post-compose with a translation. -/
def Transform.translate (t : Transform) (dx dy : ℚ) : Transform :=
  ⟨t.a, t.b, t.c, t.d, t.a * dx + t.c * dy + t.tx, t.b * dx + t.d * dy + t.ty⟩

/-- `t.scale(sx, sy)`: post-compose with an axis scale. -/
def Transform.scale (t : Transform) (sx sy : ℚ) : Transform :=
  ⟨t.a * sx, t.b * sx, t.c * sy, t.d * sy, t.tx, t.ty⟩

/-- Transform every coordinate of one path command. -/
def Cmd.transform (t : Transform) : Cmd → Cmd
  | .moveto x y => let p := t.apply x y; .moveto p.x p.y
  | .lineto x y => let p := t.apply x y; .lineto p.x p.y
  | .quadto x1 y1 x y =>
      let c1 := t.apply x1 y1; let p := t.apply x y
      .quadto c1.x c1.y p.x p.y
  | .curveto x1 y1 x2 y2 x y =>
      let c1 := t.apply x1 y1; let c2 := t.apply x2 y2; let p := t.apply x y
      .curveto c1.x c1.y c2.x c2.y p.x p.y
  | .close => .close

mutual
/-- Modelled from the spec: `Transform.transformShape` — produce a new
shape with identical structure but transformed coordinates (a rect-like
object keeps its width/height, a color is untouched geometrically). -/
def Transform.transformShape (t : Transform) : Shape → Shape
  | .point x y => let p := t.apply x y; .point p.x p.y
  | .rectObj x y w h => let p := t.apply x y; .rectObj p.x p.y w h
  | .color c => .color c
  | .path cmds f st sw => .path (cmds.map (Cmd.transform t)) f st sw
  | .group l => .group (Transform.transformList t l)
  | .array l => .array (Transform.transformList t l)
termination_by structural s => s

/-- `transformShape` mapped across an array of shapes. -/
def Transform.transformList (t : Transform) : ShapeList → ShapeList
  | .nil => .nil
  | .cons s l => .cons (Transform.transformShape t s) (Transform.transformList t l)
termination_by structural l => l
end

/-- `vg.translate`: no missing-shape guard — `shape.translate` is read
off the argument unconditionally, so a missing shape is a `TypeError`;
a present shape is translated by the generic transform (modelled from
the spec: the shape's own `translate` capability and the
`Transformable.translate` fallback both apply a fresh translation
transform). -/
def translate (shape : Option Shape) (position : Point) :
    Except JsErr (Option Shape) :=
  match shape with
  | none => .error .typeError
  | some s =>
      .ok (some ((Transform.identity.translate position.x position.y).transformShape s))

/-- `vg.scale`: no missing-shape guard (`shape.scale` is dereferenced).
Modelled from the spec: the generic scale applies about the optional
origin (default the zero point). -/
def scale (shape : Option Shape) (factor : Point) (origin : Option Point) :
    Except JsErr (Option Shape) :=
  match shape with
  | none => .error .typeError
  | some s =>
      let o := origin.getD Point.ZERO
      let t := ((Transform.identity.translate o.x o.y).scale factor.x factor.y).translate
        (-o.x) (-o.y)
      .ok (some (t.transformShape s))

/-- `t.rotate(angle)`: post-compose with a rotation, its cosine/sine
supplied by the trigonometric kernel `trig` (the rotation matrix lives
in the missing transform module; its entries are transcendental, so the
kernel is a parameter of the embedding). -/
def Transform.rotateWith (t : Transform) (cs sn : ℚ) : Transform :=
  ⟨t.a * cs + t.c * sn, t.b * cs + t.d * sn,
    t.a * (-sn) + t.c * cs, t.b * (-sn) + t.d * cs, t.tx, t.ty⟩

/-- `vg.rotate`: no missing-shape guard (`shape.rotate` is
dereferenced).  `trig` maps an angle in degrees to its (cos, sin)
pair. -/
def rotate (trig : ℚ → ℚ × ℚ) (shape : Option Shape) (angle : ℚ)
    (origin : Option Point) : Except JsErr (Option Shape) :=
  match shape with
  | none => .error .typeError
  | some s =>
      let o := origin.getD Point.ZERO
      let cs := (trig angle).1
      let sn := (trig angle).2
      let t := (((Transform.identity.translate o.x o.y).rotateWith cs sn)).translate
        (-o.x) (-o.y)
      .ok (some (t.transformShape s))

/-- `t.skew(kx, ky)`: post-compose with a skew whose tangents are
supplied by the kernel. -/
def Transform.skewWith (t : Transform) (tkx tky : ℚ) : Transform :=
  ⟨t.a + t.c * tky, t.b + t.d * tky, t.a * tkx + t.c, t.b * tkx + t.d, t.tx, t.ty⟩

/-- `vg.skew`: no missing-shape guard (`shape.skew` is dereferenced).
`tanq` maps an angle in degrees to its tangent. -/
def skew (tanq : ℚ → ℚ) (shape : Option Shape) (k : Point)
    (origin : Option Point) : Except JsErr (Option Shape) :=
  match shape with
  | none => .error .typeError
  | some s =>
      let o := origin.getD Point.ZERO
      let t := (((Transform.identity.translate o.x o.y).skewWith (tanq k.x)
        (tanq k.y))).translate (-o.x) (-o.y)
      .ok (some (t.transformShape s))

/-- The JavaScript double `Number.MAX_VALUE`, exactly. -/
def jsMaxValue : ℚ := (2 ^ 53 - 1) * 2 ^ 971

/-- The degeneracy threshold literal `0.000000000001` of `vg.fit`. -/
def fitEps : ℚ := 1 / 10 ^ 12

/-- The raw x scale factor of `vg.fit` without stretch:
`(bw > 0) ? (width / bw) : Number.MAX_VALUE`. -/
def fitRawScaleX (bw width : ℚ) : ℚ :=
  if bw > 0 then width / bw else jsMaxValue

/-- The raw y scale factor of `vg.fit` without stretch:
`(bh > 0) ? (height / bh) : Number.MAX_VALUE`. -/
def fitRawScaleY (bh height : ℚ) : ℚ :=
  if bh > 0 then height / bh else jsMaxValue

/-- `vg.fit`: guard a missing shape (returns undefined), take the
shape's bounds, clamp near-zero bounds dimensions to exactly zero,
build translate–scale–translate centering the bounds box on `position`;
without stretch one uniform factor `min(sx, sy)` is used, with stretch
the axes scale independently (degenerate axis factor 1). -/
def fit (shape : Option Shape) (position : Point) (width height : ℚ)
    (stretch : Bool) : Except JsErr (Option Shape) :=
  match shape with
  | none => .ok none
  | some s =>
      match bounds s with
      | .error e => .error e
      | .ok b =>
          let bx := b.x
          let byy := b.y
          let bw := if b.width > fitEps then b.width else 0
          let bh := if b.height > fitEps then b.height else 0
          let t := Transform.identity.translate position.x position.y
          let sxy : ℚ × ℚ :=
            if !stretch then
              let m := min (fitRawScaleX bw width) (fitRawScaleY bh height)
              (m, m)
            else
              (if bw > 0 then width / bw else 1, if bh > 0 then height / bh else 1)
          let t := t.scale sxy.1 sxy.2
          let t := t.translate (-bw / 2 - bx) (-bh / 2 - byy)
          .ok (some (t.transformShape s))

/-- `vg.align`: guard a missing shape, then translate so the chosen
bounds edge/center lands on `position` (unknown alignment keywords are
no-ops on their axis). -/
def align (shape : Option Shape) (position : Point) (hAlign vAlign : String) :
    Except JsErr (Option Shape) :=
  match shape with
  | none => .ok none
  | some s =>
      match bounds s with
      | .error e => .error e
      | .ok b =>
          let dx :=
            if hAlign = "left" then position.x - b.x
            else if hAlign = "right" then position.x - b.x - b.width
            else if hAlign = "center" then position.x - b.x - b.width / 2
            else 0
          let dy :=
            if vAlign = "top" then position.y - b.y
            else if vAlign = "bottom" then position.y - b.y - b.height
            else if vAlign = "middle" then position.y - b.y - b.height / 2
            else 0
          .ok (some ((Transform.identity.translate dx dy).transformShape s))

/-!  ## mirror  -/

/-- Modelled from the spec: the polar-geometry collaborator util/geo.
Its numeric kernels (`distance`, `angle`, `coordinates` and the cosine
of a degree angle) are transcendental, so they are parameters of the
embedding; no claim constrains their values. -/
structure Geo : Type where
  distance : ℚ → ℚ → ℚ → ℚ → ℚ
  angle : ℚ → ℚ → ℚ → ℚ → ℚ
  coordinates : ℚ → ℚ → ℚ → ℚ → Point
  cosDeg : ℚ → ℚ

/-- The reflection function `fn` built inside `vg.mirror`: polar
decomposition about `origin` at `angle` degrees, then doubling the
distance to the foot point. -/
def mirrorFn (geo : Geo) (angle : ℚ) (origin : Point) : ℚ → ℚ → Point :=
  fun x y =>
    let d := geo.distance x y origin.x origin.y
    let a := geo.angle x y origin.x origin.y
    let pt := geo.coordinates origin.x origin.y (180 + angle) (d * geo.cosDeg (a - angle))
    let d2 := geo.distance x y pt.x pt.y
    let a2 := geo.angle x y pt.x pt.y
    let pt2 := geo.coordinates x y a2 (d2 * 2)
    ⟨pt2.x, pt2.y⟩

/-- `vg._mirrorPoints`: map the reflection over a point array (each
element is rebuilt as a point from its x/y). -/
def mirrorPoints (fn : ℚ → ℚ → Point) : ShapeList → ShapeList
  | .nil => .nil
  | .cons s l =>
      let p := fn s.getX s.getY
      .cons (.point p.x p.y) (mirrorPoints fn l)

/-- The command loop of `vg._mirrorPath`: MOVETO/LINETO/CURVETO map
their coordinates through the reflection, CLOSE is kept, and any other
command (QUADTO) hits `throw new Error('Unknown command ...')`. -/
def mirrorCmds (fn : ℚ → ℚ → Point) : List Cmd → Except JsErr (List Cmd)
  | [] => .ok []
  | .moveto x y :: rest =>
      let p := fn x y
      (mirrorCmds fn rest).map (fun cs => .moveto p.x p.y :: cs)
  | .lineto x y :: rest =>
      let p := fn x y
      (mirrorCmds fn rest).map (fun cs => .lineto p.x p.y :: cs)
  | .curveto x1 y1 x2 y2 x y :: rest =>
      let p := fn x y
      let c1 := fn x1 y1
      let c2 := fn x2 y2
      (mirrorCmds fn rest).map (fun cs => .curveto c1.x c1.y c2.x c2.y p.x p.y :: cs)
  | .close :: rest => (mirrorCmds fn rest).map (fun cs => .close :: cs)
  | .quadto _ _ _ _ :: _ => .error .unknownCommand

mutual
/-- `vg._mirror`: dispatch — point arrays map elementwise, groups
recurse, everything else goes through `_mirrorPath` (a non-path value
there has no `.commands`, so the loop is empty and an empty path with
undefined styling comes back). -/
def Shape.mirrorSh (fn : ℚ → ℚ → Point) : Shape → Except JsErr Shape
  | .group l => (Shape.mirrorList fn l).map .group
  | .array (.cons s rest) =>
      if s.hasXY then .ok (.array (mirrorPoints fn (.cons s rest)))
      else .ok (.path [] none none 0)
  | .array .nil => .ok (.path [] none none 0)
  | .path cmds f st sw => (mirrorCmds fn cmds).map (fun cs => .path cs f st sw)
  | .point _ _ => .ok (.path [] none none 0)
  | .rectObj _ _ _ _ => .ok (.path [] none none 0)
  | .color _ => .ok (.path [] none none 0)
termination_by structural s => s

/-- `vg._mirrorGroup`: mirror every child of a group. -/
def Shape.mirrorList (fn : ℚ → ℚ → Point) : ShapeList → Except JsErr ShapeList
  | .nil => .ok .nil
  | .cons s l =>
      match Shape.mirrorSh fn s with
      | .error e => .error e
      | .ok ms =>
          match Shape.mirrorList fn l with
          | .error e => .error e
          | .ok ml => .ok (.cons ms ml)
termination_by structural l => l
end

/-- Concatenation of shape arrays (JavaScript `Array.concat`). -/
def ShapeList.append : ShapeList → ShapeList → ShapeList
  | .nil, l => l
  | .cons s t, l => .cons s (t.append l)

/-- `vg.mirror`: guard a missing shape; an undefined angle defaults to
90 (an explicit 0 is kept); with `keepOriginal` a point-array input is
concatenated with its image, anything else grouped with it. -/
def mirror (geo : Geo) (shape : Option Shape) (angle : Option ℚ)
    (origin : Option Point) (keepOriginal : Bool) : Except JsErr (Option Shape) :=
  match shape with
  | none => .ok none
  | some s =>
      let o := origin.getD Point.ZERO
      let ang := match angle with
        | none => 90
        | some a => a
      match Shape.mirrorSh (mirrorFn geo ang o) s with
      | .error e => .error e
      | .ok ns =>
          if keepOriginal then
            match s, ns with
            | .array (.cons h t), .array nitems =>
                if h.hasXY then .ok (some (.array ((ShapeList.cons h t).append nitems)))
                else .ok (some (.group (.cons s (.cons ns .nil))))
            | _, _ => .ok (some (.group (.cons s (.cons ns .nil))))
          else .ok (some ns)

/-!  ## snap  -/

/-- JavaScript `Math.round`: halves round toward positive infinity. -/
def jsRound (q : ℚ) : ℚ := ((⌊q + 1 / 2⌋ : ℤ) : ℚ)

/-- Modelled from the spec: util/math `snap(value, distance, strength)`
— linear interpolation between the original value and the nearest
multiple of `distance`, with interpolation weight `strength` (0 = no
change, 1 = full snap). -/
def mathSnap (value distance strength : ℚ) : ℚ :=
  value * (1 - strength) + jsRound (value / distance) * distance * strength

/-- The command loop of `vg.snap` on a path: MOVETO/LINETO/CURVETO snap
each coordinate relative to the center offset, CLOSE closes, any other
command (QUADTO) hits `throw new Error('Invalid path command ...')`. -/
def snapCmds (distance strength cx cy : ℚ) : List Cmd → Except JsErr (List Cmd)
  | [] => .ok []
  | .moveto x y :: rest =>
      (snapCmds distance strength cx cy rest).map fun cs =>
        .moveto (mathSnap (x + cx) distance strength - cx)
          (mathSnap (y + cy) distance strength - cy) :: cs
  | .lineto x y :: rest =>
      (snapCmds distance strength cx cy rest).map fun cs =>
        .lineto (mathSnap (x + cx) distance strength - cx)
          (mathSnap (y + cy) distance strength - cy) :: cs
  | .curveto x1 y1 x2 y2 x y :: rest =>
      (snapCmds distance strength cx cy rest).map fun cs =>
        .curveto (mathSnap (x1 + cx) distance strength - cx)
          (mathSnap (y1 + cy) distance strength - cy)
          (mathSnap (x2 + cx) distance strength - cx)
          (mathSnap (y2 + cy) distance strength - cy)
          (mathSnap (x + cx) distance strength - cx)
          (mathSnap (y + cy) distance strength - cy) :: cs
  | .close :: rest =>
      (snapCmds distance strength cx cy rest).map fun cs => .close :: cs
  | .quadto _ _ _ _ :: _ => .error .invalidPathCommand

/-- The point-array branch of `vg.snap`: snap every element's x/y and
rebuild it as a point. -/
def snapPointsArr (distance strength cx cy : ℚ) : ShapeList → ShapeList
  | .nil => .nil
  | .cons s l =>
      .cons (.point (mathSnap (s.getX + cx) distance strength - cx)
          (mathSnap (s.getY + cy) distance strength - cy))
        (snapPointsArr distance strength cx cy l)

mutual
/-- `vg.snap` dispatch on a present shape: paths snap their commands,
groups recurse, point arrays snap elementwise, other arrays recurse
elementwise, and a non-array non-shape value falls into the final
branch whose loop runs zero times (its `.length` is undefined), giving
an empty array. -/
def snapShape (distance strength cx cy : ℚ) : Shape → Except JsErr Shape
  | .path cmds f st sw =>
      (snapCmds distance strength cx cy cmds).map fun cs => .path cs f st sw
  | .group l => (snapList distance strength cx cy l).map .group
  | .array (.cons s rest) =>
      if s.hasXY then .ok (.array (snapPointsArr distance strength cx cy (.cons s rest)))
      else (snapList distance strength cx cy (.cons s rest)).map .array
  | .array .nil => (snapList distance strength cx cy .nil).map .array
  | .point _ _ => .ok (.array .nil)
  | .rectObj _ _ _ _ => .ok (.array .nil)
  | .color _ => .ok (.array .nil)
termination_by structural s => s

/-- The recursive element loop of `vg.snap` over an array or a group's
children. -/
def snapList (distance strength cx cy : ℚ) : ShapeList → Except JsErr ShapeList
  | .nil => .ok .nil
  | .cons s l =>
      match snapShape distance strength cx cy s with
      | .error e => .error e
      | .ok ss =>
          match snapList distance strength cx cy l with
          | .error e => .error e
          | .ok sl => .ok (.cons ss sl)
termination_by structural l => l
end

/-- `vg.snap`: guard a missing shape; strength defaults to 1, center to
the zero point. -/
def snap (shape : Option Shape) (distance : ℚ) (strength : Option ℚ)
    (center : Option Point) : Except JsErr (Option Shape) :=
  match shape with
  | none => .ok none
  | some s =>
      let st := strength.getD 1
      let c := center.getD Point.ZERO
      (snapShape distance st c.x c.y s).map some

/-!  ## delete  -/

/-- `bounding.contains(x, y)` on a delete bounding argument: reading
`contains` off `undefined` or `null` is a `TypeError`. -/
def JsArg.containsQ : JsArg Rect → ℚ → ℚ → Except JsErr Bool
  | .val r, x, y => .ok (r.contains x y)
  | _, _, _ => .error .typeError

/-- The endpoint coordinates of a command (`cmd.x`, `cmd.y`), absent
for CLOSE. -/
def Cmd.endpoint : Cmd → Option (ℚ × ℚ)
  | .moveto x y => some (x, y)
  | .lineto x y => some (x, y)
  | .quadto _ _ x y => some (x, y)
  | .curveto _ _ _ _ x y => some (x, y)
  | .close => none

/-- Retag a command as MOVETO (the `cmd.type = bezier.MOVETO` rewrite
of `vg.deletePoints`).  A retagged CLOSE has undefined coordinates in
JavaScript; embedded as MOVETO (0, 0) — no claim exercises that
corner. -/
def Cmd.retagMoveto : Cmd → Cmd
  | .moveto x y => .moveto x y
  | .lineto x y => .moveto x y
  | .quadto _ _ x y => .moveto x y
  | .curveto _ _ _ _ x y => .moveto x y
  | .close => .moveto 0 0

/-- The command loop of `vg.deletePoints` on a path: keep a command if
it has no endpoint (CLOSE) or its endpoint passes the invert-aware
containment test; the first kept command of each contour is retagged
MOVETO (tracked by the `newCurve` flag). -/
def deletePointsCmds (bounding : JsArg Rect) (invert : Bool) :
    List Cmd → Bool → Except JsErr (List Cmd)
  | [], _ => .ok []
  | c :: rest, newCurve =>
      match c.endpoint with
      | none =>
          -- CLOSE: `cmd.x === undefined` keeps it unconditionally.
          let c' := if newCurve && !(c matches .moveto _ _) then c.retagMoveto else c
          let newCurve' :=
            if c' matches .moveto _ _ then false
            else if c' matches .close then true else newCurve
          (deletePointsCmds bounding invert rest newCurve').map (c' :: ·)
      | some (x, y) =>
          match bounding.containsQ x y with
          | .error e => .error e
          | .ok inside =>
              if (invert && inside) || (!invert && !inside) then
                let c' := if newCurve && !(c matches .moveto _ _) then c.retagMoveto else c
                let newCurve' :=
                  if c' matches .moveto _ _ then false
                  else if c' matches .close then true else newCurve
                (deletePointsCmds bounding invert rest newCurve').map (c' :: ·)
              else
                deletePointsCmds bounding invert rest newCurve

/-- The point-array branch of `vg.deletePoints`: keep each element per
the invert-aware containment test (its `_cloneCommand` copy carries
just x and y, i.e. a point). -/
def deletePointsArr (bounding : JsArg Rect) (invert : Bool) :
    ShapeList → Except JsErr ShapeList
  | .nil => .ok .nil
  | .cons s l =>
      match bounding.containsQ s.getX s.getY with
      | .error e => .error e
      | .ok inside =>
          match deletePointsArr bounding invert l with
          | .error e => .error e
          | .ok rest =>
              if (invert && inside) || (!invert && !inside) then
                .ok (.cons (.point s.getX s.getY) rest)
              else .ok rest

mutual
/-- `vg.deletePoints`: paths filter commands (resynthesizing contour
starts as MOVETO), groups recurse, point arrays filter elements, other
arrays recurse elementwise, and a non-array non-shape value falls into
the final zero-iteration loop, giving an empty array. -/
def deletePoints (bounding : JsArg Rect) (invert : Bool) :
    Shape → Except JsErr Shape
  | .path cmds f st sw =>
      (deletePointsCmds bounding invert cmds true).map fun cs => .path cs f st sw
  | .group l => (deletePointsList bounding invert l).map .group
  | .array (.cons s rest) =>
      if s.hasXY then deletePointsArr bounding invert (.cons s rest) |>.map .array
      else (deletePointsList bounding invert (.cons s rest)).map .array
  | .array .nil => (deletePointsList bounding invert .nil).map .array
  | .point _ _ => .ok (.array .nil)
  | .rectObj _ _ _ _ => .ok (.array .nil)
  | .color _ => .ok (.array .nil)
termination_by structural s => s

/-- The recursive element loop of `vg.deletePoints` over an array or a
group's children. -/
def deletePointsList (bounding : JsArg Rect) (invert : Bool) :
    ShapeList → Except JsErr ShapeList
  | .nil => .ok .nil
  | .cons s l =>
      match deletePoints bounding invert s with
      | .error e => .error e
      | .ok ds =>
          match deletePointsList bounding invert l with
          | .error e => .error e
          | .ok dl => .ok (.cons ds dl)
termination_by structural l => l
end

/-- The `selected` scan of `vg.deletePaths`: whether any
coordinate-carrying command of the path has its endpoint inside the
bounding rect (stops at the first hit). -/
def pathSelected (bounding : JsArg Rect) : List Cmd → Except JsErr Bool
  | [] => .ok false
  | c :: rest =>
      match c.endpoint with
      | none => pathSelected bounding rest
      | some (x, y) =>
          match bounding.containsQ x y with
          | .error e => .error e
          | .ok true => .ok true
          | .ok false => pathSelected bounding rest

mutual
/-- `vg.deletePaths`: a bare path returns null; a group rebuilds from
the recursion over its child array; an array keeps each path child iff
its selection state equals `invert`, always keeps recursed group
children (the `subShapes.length !== 0` probe on a Group object is
always true since a Group has no `length`), and silently drops any
other child; any other value falls through, returning undefined. -/
def deletePaths (bounding : JsArg Rect) (invert : Bool) :
    Shape → Except JsErr (JsArg Shape)
  | .path _ _ _ _ => .ok .jsnull
  | .group l => (deletePathsArr bounding invert l).map fun nl => .val (.group nl)
  | .array l => (deletePathsArr bounding invert l).map fun nl => .val (.array nl)
  | .point _ _ => .ok .undef
  | .rectObj _ _ _ _ => .ok .undef
  | .color _ => .ok .undef
termination_by structural s => s

/-- The element loop of the array branch of `vg.deletePaths` (a group
child goes back through `vg.deletePaths` and its result is always
pushed). -/
def deletePathsArr (bounding : JsArg Rect) (invert : Bool) :
    ShapeList → Except JsErr ShapeList
  | .nil => .ok .nil
  | .cons s l =>
      match s with
      | .path cmds f st sw =>
          match pathSelected bounding cmds with
          | .error e => .error e
          | .ok selected =>
              match deletePathsArr bounding invert l with
              | .error e => .error e
              | .ok rest =>
                  if !((invert && !selected) || (selected && !invert)) then
                    .ok (.cons (.path cmds f st sw) rest)
                  else .ok rest
      | .group g =>
          match deletePaths bounding invert (.group g) with
          | .error e => .error e
          | .ok sub =>
              match deletePathsArr bounding invert l with
              | .error e => .error e
              | .ok rest =>
                  match sub with
                  | .val subShape => .ok (.cons subShape rest)
                  | _ => .ok rest
      | _ => deletePathsArr bounding invert l
termination_by structural sl => sl
end

/-- `vg.delete`: a null shape or bounding returns null; scope 'points'
and 'paths' dispatch (dereferencing an undefined shape there is a
`TypeError`); any other scope is `throw new Error('Invalid scope.')`. -/
def delete (shape : JsArg Shape) (bounding : JsArg Rect) (scope : String)
    (invert : Bool) : Except JsErr (JsArg Shape) :=
  if shape = .jsnull ∨ bounding = .jsnull then .ok .jsnull
  else if scope = "points" then
    match shape with
    | .val s => (deletePoints bounding invert s).map .val
    | _ => .error .typeError
  else if scope = "paths" then
    match shape with
    | .val s => deletePaths bounding invert s
    | _ => .error .typeError
  else .error .invalidScope

/-- Claim C2: for every non-null shape and non-null bounding rect,
`vg.delete` with a scope other than 'points' and 'paths' throws the
'Invalid scope.' error rather than returning a value. -/
theorem delete_invalid_scope_C2 :
    ∀ (s : Shape) (b : Rect) (scope : String) (inv : Bool),
      scope ≠ "points" → scope ≠ "paths" →
      delete (.val s) (.val b) scope inv = .error .invalidScope := by
  intro s b scope inv h1 h2
  simp [delete, h1, h2]

/-- Witness for claim C2 at the scope string of the spec's example. -/
theorem delete_invalid_scope_C2_witness :
    delete (.val (.point 0 0)) (.val Rect.empty) ("bogus-scope") false
      = .error .invalidScope :=
  delete_invalid_scope_C2 (.point 0 0) Rect.empty ("bogus-scope") false
    (by decide) (by decide)

/-- The point-array branch of `vg.deletePoints` keeps exactly the
points whose containment state equals `invert`. -/
theorem deletePointsArr_filter (R : Rect) (inv : Bool) (pts : List Point) :
    deletePointsArr (.val R) inv (ShapeList.ofList (pts.map fun p => .point p.x p.y))
      = .ok (ShapeList.ofList
          (((pts.filter fun p => R.contains p.x p.y == inv)).map fun p => .point p.x p.y)) := by
  induction pts with
  | nil => rfl
  | cons p t ih =>
    simp only [List.map_cons, ShapeList.ofList, deletePointsArr, JsArg.containsQ,
      Shape.getX, Shape.getY, ih]
    cases hc : R.contains p.x p.y <;> cases inv <;>
      simp [List.filter_cons, hc, ShapeList.ofList]

/-- Claim C8: on an array of points, `delete(P, R, 'points', false)`
keeps exactly the points outside R and `delete(P, R, 'points', true)`
keeps exactly the points inside R (boundary-touching points count as
inside, consistently), so the two kept sets partition P: together they
are a permutation of P. -/
theorem delete_points_partition_C8 :
    ∀ (pts : List Point) (R : Rect),
      delete (.val (pointArray pts)) (.val R) ("points") false
        = .ok (.val (pointArray (pts.filter fun p => !(R.contains p.x p.y))))
      ∧ delete (.val (pointArray pts)) (.val R) ("points") true
        = .ok (.val (pointArray (pts.filter fun p => R.contains p.x p.y)))
      ∧ ((pts.filter fun p => R.contains p.x p.y)
          ++ pts.filter fun p => !(R.contains p.x p.y)).Perm pts := by
  intro pts R
  have hfalse : (pts.filter fun p => R.contains p.x p.y == false)
      = pts.filter fun p => !(R.contains p.x p.y) :=
    List.filter_congr fun a _ => by cases R.contains a.x a.y <;> rfl
  have htrue : (pts.filter fun p => R.contains p.x p.y == true)
      = pts.filter fun p => R.contains p.x p.y :=
    List.filter_congr fun a _ => by cases R.contains a.x a.y <;> rfl
  refine ⟨?_, ?_, List.filter_append_perm _ pts⟩
  · show delete (.val (pointArray pts)) (.val R) ("points") false = _
    rw [delete]
    simp only [reduceCtorEq, or_self, if_false, if_pos rfl]
    cases pts with
    | nil => rfl
    | cons p t =>
      show (deletePoints (.val R) false (pointArray (p :: t))).map JsArg.val = _
      rw [pointArray, List.map_cons, ShapeList.ofList, deletePoints,
        if_pos (by rfl)]
      rw [show ShapeList.cons (Shape.point p.x p.y)
            (ShapeList.ofList (t.map fun q => Shape.point q.x q.y))
          = ShapeList.ofList ((p :: t).map fun q => Shape.point q.x q.y) from rfl]
      rw [deletePointsArr_filter, hfalse]
      rfl
  · show delete (.val (pointArray pts)) (.val R) ("points") true = _
    rw [delete]
    simp only [reduceCtorEq, or_self, if_false, if_pos rfl]
    cases pts with
    | nil => rfl
    | cons p t =>
      show (deletePoints (.val R) true (pointArray (p :: t))).map JsArg.val = _
      rw [pointArray, List.map_cons, ShapeList.ofList, deletePoints,
        if_pos (by rfl)]
      rw [show ShapeList.cons (Shape.point p.x p.y)
            (ShapeList.ofList (t.map fun q => Shape.point q.x q.y))
          = ShapeList.ofList ((p :: t).map fun q => Shape.point q.x q.y) from rfl]
      rw [deletePointsArr_filter, htrue]
      rfl

/-!  ## snap idempotence  -/

theorem jsRound_intCast (k : ℤ) : jsRound (k : ℚ) = (k : ℚ) := by
  unfold jsRound
  rw [Int.floor_int_add]
  norm_num

theorem mathSnap_one (v d : ℚ) : mathSnap v d 1 = jsRound (v / d) * d := by
  unfold mathSnap
  ring

theorem mathSnap_one_idem (v d : ℚ) (hd : d ≠ 0) :
    mathSnap (mathSnap v d 1) d 1 = mathSnap v d 1 := by
  rw [mathSnap_one, mathSnap_one, mul_div_cancel_right₀ _ hd]
  rw [show jsRound (v / d) = ((⌊v / d + 1 / 2⌋ : ℤ) : ℚ) from rfl, jsRound_intCast]

/-- The command loop of `vg.snap` at strength 1 is idempotent. -/
theorem snapCmds_idem (d cx cy : ℚ) (hd : d ≠ 0) :
    ∀ (cmds cs : List Cmd), snapCmds d 1 cx cy cmds = .ok cs →
      snapCmds d 1 cx cy cs = .ok cs := by
  intro cmds
  induction cmds with
  | nil =>
    intro cs h
    simp only [snapCmds, Except.ok.injEq] at h
    subst h
    rfl
  | cons c rest ih =>
    intro cs h
    cases c with
    | moveto x y =>
      rcases hr : snapCmds d 1 cx cy rest with e | cs'
      · rw [snapCmds, hr] at h; simp [Except.map] at h
      · rw [snapCmds, hr] at h
        simp only [Except.map, Except.ok.injEq] at h
        subst h
        rw [snapCmds, ih cs' hr]
        simp [Except.map, mathSnap_one_idem _ _ hd]
    | lineto x y =>
      rcases hr : snapCmds d 1 cx cy rest with e | cs'
      · rw [snapCmds, hr] at h; simp [Except.map] at h
      · rw [snapCmds, hr] at h
        simp only [Except.map, Except.ok.injEq] at h
        subst h
        rw [snapCmds, ih cs' hr]
        simp [Except.map, mathSnap_one_idem _ _ hd]
    | quadto x1 y1 x y =>
      rw [snapCmds] at h
      simp at h
    | curveto x1 y1 x2 y2 x y =>
      rcases hr : snapCmds d 1 cx cy rest with e | cs'
      · rw [snapCmds, hr] at h; simp [Except.map] at h
      · rw [snapCmds, hr] at h
        simp only [Except.map, Except.ok.injEq] at h
        subst h
        rw [snapCmds, ih cs' hr]
        simp [Except.map, mathSnap_one_idem _ _ hd]
    | close =>
      rcases hr : snapCmds d 1 cx cy rest with e | cs'
      · rw [snapCmds, hr] at h; simp [Except.map] at h
      · rw [snapCmds, hr] at h
        simp only [Except.map, Except.ok.injEq] at h
        subst h
        rw [snapCmds, ih cs' hr]
        simp [Except.map]

/-- The point-array branch of `vg.snap` at strength 1 is idempotent. -/
theorem snapPointsArr_idem (d cx cy : ℚ) (hd : d ≠ 0) :
    ∀ l : ShapeList,
      snapPointsArr d 1 cx cy (snapPointsArr d 1 cx cy l) = snapPointsArr d 1 cx cy l
  | .nil => rfl
  | .cons s t => by
    rw [show snapPointsArr d 1 cx cy (.cons s t)
        = .cons (.point (mathSnap (s.getX + cx) d 1 - cx)
            (mathSnap (s.getY + cy) d 1 - cy)) (snapPointsArr d 1 cx cy t) from rfl]
    rw [snapPointsArr]
    rw [snapPointsArr_idem d cx cy hd t]
    simp [Shape.getX, Shape.getY, mathSnap_one_idem _ _ hd]

/-- Every successful result of the `vg.snap` dispatcher is a path, a
group or an array, never a bare point-like value. -/
theorem snapShape_not_xy (d st cx cy : ℚ) :
    ∀ (s s' : Shape), snapShape d st cx cy s = .ok s' → s'.hasXY = false := by
  intro s s' h
  cases s with
  | path cmds f stk sw =>
    rcases hc : snapCmds d st cx cy cmds with e | cs <;> rw [snapShape, hc] at h <;>
      simp only [Except.map, Except.ok.injEq, reduceCtorEq] at h
    rw [← h]; rfl
  | group l =>
    rcases hl : snapList d st cx cy l with e | l' <;> rw [snapShape, hl] at h <;>
      simp only [Except.map, Except.ok.injEq, reduceCtorEq] at h
    rw [← h]; rfl
  | array l =>
    cases l with
    | nil =>
      simp only [snapShape, snapList, Except.map, Except.ok.injEq] at h
      rw [← h]; rfl
    | cons s0 rest =>
      by_cases hxy : s0.hasXY = true
      · rw [snapShape, if_pos hxy] at h
        simp only [Except.ok.injEq] at h
        rw [← h]; rfl
      · rw [snapShape, if_neg hxy] at h
        rcases hl : snapList d st cx cy (.cons s0 rest) with e | l' <;> rw [hl] at h <;>
          simp only [Except.map, Except.ok.injEq, reduceCtorEq] at h
        rw [← h]; rfl
  | point x y =>
    simp only [snapShape, Except.ok.injEq] at h
    rw [← h]; rfl
  | rectObj x y w hh =>
    simp only [snapShape, Except.ok.injEq] at h
    rw [← h]; rfl
  | color c =>
    simp only [snapShape, Except.ok.injEq] at h
    rw [← h]; rfl

mutual
/-- The `vg.snap` dispatcher at strength 1 is idempotent on every shape
variant. -/
theorem snapShape_idem (d cx cy : ℚ) (hd : d ≠ 0) :
    ∀ (s s' : Shape), snapShape d 1 cx cy s = .ok s' → snapShape d 1 cx cy s' = .ok s'
  | .path cmds f stk sw, s', h => by
    rcases hc : snapCmds d 1 cx cy cmds with e | cs
    · rw [snapShape, hc] at h; simp [Except.map] at h
    · rw [snapShape, hc] at h
      simp only [Except.map, Except.ok.injEq] at h
      subst h
      rw [snapShape, snapCmds_idem d cx cy hd cmds cs hc]
      rfl
  | .group l, s', h => by
    rcases hl : snapList d 1 cx cy l with e | l'
    · rw [snapShape, hl] at h; simp [Except.map] at h
    · rw [snapShape, hl] at h
      simp only [Except.map, Except.ok.injEq] at h
      subst h
      rw [snapShape, snapList_idem d cx cy hd l l' hl]
      rfl
  | .array .nil, s', h => by
    simp only [snapShape, snapList, Except.map, Except.ok.injEq] at h
    subst h
    rfl
  | .array (.cons s0 rest), s', h => by
    by_cases hxy : s0.hasXY = true
    · rw [snapShape, if_pos hxy] at h
      simp only [Except.ok.injEq] at h
      subst h
      rw [show snapPointsArr d 1 cx cy (.cons s0 rest)
          = .cons (.point (mathSnap (s0.getX + cx) d 1 - cx)
              (mathSnap (s0.getY + cy) d 1 - cy)) (snapPointsArr d 1 cx cy rest) from rfl]
      have hp : (Shape.point (mathSnap (s0.getX + cx) d 1 - cx)
          (mathSnap (s0.getY + cy) d 1 - cy)).hasXY = true := rfl
      rw [snapShape, if_pos hp]
      rw [show ShapeList.cons (Shape.point (mathSnap (s0.getX + cx) d 1 - cx)
              (mathSnap (s0.getY + cy) d 1 - cy)) (snapPointsArr d 1 cx cy rest)
          = snapPointsArr d 1 cx cy (.cons s0 rest) from rfl]
      rw [snapPointsArr_idem d cx cy hd]
    · rw [snapShape, if_neg hxy] at h
      rcases hs0 : snapShape d 1 cx cy s0 with e | s0'
      · rw [snapList, hs0] at h; simp [Except.map] at h
      · rcases hr : snapList d 1 cx cy rest with e | rest'
        · rw [snapList, hs0, hr] at h; simp [Except.map] at h
        · rw [snapList, hs0, hr] at h
          simp only [Except.map, Except.ok.injEq] at h
          subst h
          have hl' : snapList d 1 cx cy (.cons s0 rest) = .ok (.cons s0' rest') := by
            rw [snapList, hs0, hr]
          have hxy' : s0'.hasXY = false := snapShape_not_xy d 1 cx cy s0 s0' hs0
          rw [snapShape, if_neg (by simp [hxy'])]
          rw [snapList_idem d cx cy hd (.cons s0 rest) (.cons s0' rest') hl']
          rfl
  | .point x y, s', h => by
    simp only [snapShape, Except.ok.injEq] at h
    subst h
    rfl
  | .rectObj x y w hh, s', h => by
    simp only [snapShape, Except.ok.injEq] at h
    subst h
    rfl
  | .color c, s', h => by
    simp only [snapShape, Except.ok.injEq] at h
    subst h
    rfl
termination_by structural s _ _ => s

/-- The element loop of `vg.snap` at strength 1 is idempotent. -/
theorem snapList_idem (d cx cy : ℚ) (hd : d ≠ 0) :
    ∀ (l l' : ShapeList), snapList d 1 cx cy l = .ok l' → snapList d 1 cx cy l' = .ok l'
  | .nil, l', h => by
    simp only [snapList, Except.ok.injEq] at h
    subst h
    rfl
  | .cons s t, l', h => by
    rcases hs : snapShape d 1 cx cy s with e | s'
    · rw [snapList, hs] at h; simp at h
    · rcases ht : snapList d 1 cx cy t with e | t'
      · rw [snapList, hs, ht] at h; simp at h
      · rw [snapList, hs, ht] at h
        simp only [Except.ok.injEq] at h
        subst h
        rw [snapList, snapShape_idem d cx cy hd s s' hs, snapList_idem d cx cy hd t t' ht]
termination_by structural l _ _ => l
end

/-- Claim C7: `vg.snap` with strength 1 is idempotent — whenever
snapping succeeds (and the grid distance is nonzero), snapping the
result again returns it unchanged. -/
theorem snap_idempotent_C7 :
    ∀ (s s' : Shape) (d : ℚ) (origin : Point), d ≠ 0 →
      snap (some s) d (some 1) (some origin) = .ok (some s') →
      snap (some s') d (some 1) (some origin) = .ok (some s') := by
  intro s s' d origin hd h
  rw [snap] at h
  simp only [Option.getD] at h
  rcases hs : snapShape d 1 origin.x origin.y s with e | s0
  · rw [hs] at h
    simp [Except.map] at h
  · rw [hs] at h
    simp only [Except.map, Except.ok.injEq, Option.some.injEq] at h
    subst h
    rw [snap]
    simp only [Option.getD]
    rw [snapShape_idem d origin.x origin.y hd s s0 hs]
    rfl

/-- Witness for claim C7: a one-point array already on the distance-2
grid is a fixed point of snapping. -/
theorem snap_idempotent_C7_witness :
    (2 : ℚ) ≠ 0 ∧
    snap (some (pointArray [⟨4, 6⟩])) 2 (some 1) (some ⟨0, 0⟩)
      = .ok (some (pointArray [⟨4, 6⟩])) ∧
    snap (some (pointArray [⟨4, 6⟩])) 2 (some 1) (some ⟨0, 0⟩)
      = .ok (some (pointArray [⟨4, 6⟩])) := by
  have heval : snap (some (pointArray [⟨4, 6⟩])) 2 (some 1) (some ⟨0, 0⟩)
      = .ok (some (pointArray [⟨4, 6⟩])) := by
    rw [snap]
    simp only [Option.getD]
    rw [pointArray]
    simp only [List.map_cons, List.map_nil, ShapeList.ofList]
    have hp : (Shape.point (4 : ℚ) (6 : ℚ)).hasXY = true := rfl
    rw [snapShape, if_pos hp]
    rw [show snapPointsArr 2 1 0 0
        (.cons (Shape.point (4 : ℚ) (6 : ℚ)) .nil)
        = .cons (.point (mathSnap ((4 : ℚ) + 0) 2 1 - 0) (mathSnap ((6 : ℚ) + 0) 2 1 - 0))
            .nil from rfl]
    norm_num [mathSnap, jsRound, Except.map]
  exact ⟨by norm_num, heval,
    snap_idempotent_C7 (pointArray [⟨4, 6⟩]) (pointArray [⟨4, 6⟩]) 2 ⟨0, 0⟩
      (by norm_num) heval⟩

/-!  ## wiggle  -/

/-- One step of the linear congruential generator state. -/
def lcgNext (s : ℕ) : ℕ := (1103515245 * s + 12345) % 2147483648

/-- The generator state after `i` draws from a seed. -/
def lcgState (seed : ℕ) : ℕ → ℕ
  | 0 => lcgNext seed
  | n + 1 => lcgNext (lcgState seed n)

/-- Modelled from the spec: util/random `generator(seed)` — a
deterministic seeded pseudo-random source of uniform values in [0, 1);
the i-th call of the closure `rand(0, 1)` yields `generator seed i`. -/
def generator (seed : ℕ) : ℕ → ℚ :=
  fun i => (lcgState seed i : ℚ) / 2147483648

theorem lcgState_lt (seed i : ℕ) : lcgState seed i < 2147483648 := by
  cases i <;> exact Nat.mod_lt _ (by norm_num)

theorem generator_nonneg (seed i : ℕ) : 0 ≤ generator seed i := by
  unfold generator
  positivity

theorem generator_lt_one (seed i : ℕ) : generator seed i < 1 := by
  unfold generator
  rw [div_lt_one (by norm_num)]
  exact_mod_cast lcgState_lt seed i

/-- The `offset` argument of the wiggle operations: undefined (defaults
to (10, 10)), a bare number (used on both axes), or an (x, y) pair. -/
inductive OffsetArg : Type
  | undef : OffsetArg
  | num (v : ℚ) : OffsetArg
  | pair (x y : ℚ) : OffsetArg
deriving DecidableEq, Repr

/-- The offset normalization shared by the wiggle entry points. -/
def OffsetArg.resolve : OffsetArg → ℚ × ℚ
  | .undef => (10, 10)
  | .num v => (v, v)
  | .pair x y => (x, y)

/-- The command loop of `vg._wigglePoints` on a path: every iteration
draws dx and dy, MOVETO/LINETO/CURVETO endpoints are jittered (CURVETO
control points are kept), CLOSE closes, and a QUADTO matches no branch
and is silently dropped (after consuming its two draws). -/
def wiggleCmds (rand : ℕ → ℚ) (ox oy : ℚ) : List Cmd → ℕ → (List Cmd × ℕ)
  | [], k => ([], k)
  | c :: rest, k =>
      let dx := (rand k - 1 / 2) * ox * 2
      let dy := (rand (k + 1) - 1 / 2) * oy * 2
      let (cs, k') := wiggleCmds rand ox oy rest (k + 2)
      match c with
      | .moveto x y => (.moveto (x + dx) (y + dy) :: cs, k')
      | .lineto x y => (.lineto (x + dx) (y + dy) :: cs, k')
      | .curveto x1 y1 x2 y2 x y => (.curveto x1 y1 x2 y2 (x + dx) (y + dy) :: cs, k')
      | .close => (.close :: cs, k')
      | .quadto _ _ _ _ => (cs, k')

/-- The point-array branch of `vg._wigglePoints`: jitter every
element's x/y by a fresh pair of draws. -/
def wigglePointsArr (rand : ℕ → ℚ) (ox oy : ℚ) : ShapeList → ℕ → (ShapeList × ℕ)
  | .nil, k => (.nil, k)
  | .cons s l, k =>
      let dx := (rand k - 1 / 2) * ox * 2
      let dy := (rand (k + 1) - 1 / 2) * oy * 2
      let (rest, k') := wigglePointsArr rand ox oy l (k + 2)
      (.cons (.point (s.getX + dx) (s.getY + dy)) rest, k')

mutual
/-- `vg._wigglePoints` dispatch, threading the draw counter exactly as
the stateful JavaScript generator is consumed. -/
def wigglePointsSh (rand : ℕ → ℚ) (ox oy : ℚ) : Shape → ℕ → (Shape × ℕ)
  | .path cmds f st sw, k =>
      let (cs, k') := wiggleCmds rand ox oy cmds k
      (.path cs f st sw, k')
  | .group l, k =>
      let (ls, k') := wigglePointsList rand ox oy l k
      (.group ls, k')
  | .array (.cons s rest), k =>
      if s.hasXY then
        let (ls, k') := wigglePointsArr rand ox oy (.cons s rest) k
        (.array ls, k')
      else
        let (ls, k') := wigglePointsList rand ox oy (.cons s rest) k
        (.array ls, k')
  | .array .nil, k => (.array .nil, k)
  | .point _ _, k => (.array .nil, k)
  | .rectObj _ _ _ _, k => (.array .nil, k)
  | .color _, k => (.array .nil, k)
termination_by structural s _ => s

/-- The elementwise loop of `vg._wigglePoints` over a group's children
or a heterogeneous array. -/
def wigglePointsList (rand : ℕ → ℚ) (ox oy : ℚ) : ShapeList → ℕ → (ShapeList × ℕ)
  | .nil, k => (.nil, k)
  | .cons s l, k =>
      let (ws, k') := wigglePointsSh rand ox oy s k
      let (wl, k'') := wigglePointsList rand ox oy l k'
      (.cons ws wl, k'')
termination_by structural l _ => l
end

/-- `vg.wigglePoints`: seed an explicit value or the ambient
`Math.random()` draw, normalize the offset, then run the recursion (a
missing shape is dereferenced inside and throws). -/
def wigglePoints (shape : Option Shape) (offset : OffsetArg) (seed : Option ℕ)
    (ambient : ℕ) : Except JsErr (Option Shape) :=
  let sd := seed.getD ambient
  let rand := generator sd
  let o := offset.resolve
  match shape with
  | none => .error .typeError
  | some s => .ok (some (wigglePointsSh rand o.1 o.2 s 0).1)

/-- Modelled from the spec: `Path.contours()` — split the command list
into contours; a contour starts at a MOVETO and ends at the next MOVETO
or at CLOSE. -/
def contoursGo : List Cmd → List Cmd → List (List Cmd)
  | [], cur => if cur.isEmpty then [] else [cur.reverse]
  | .moveto x y :: rest, cur =>
      if cur.isEmpty then contoursGo rest [.moveto x y]
      else cur.reverse :: contoursGo rest [.moveto x y]
  | .close :: rest, cur => (cur.reverse ++ [Cmd.close]) :: contoursGo rest []
  | c :: rest, cur => contoursGo rest (c :: cur)

/-- Modelled from the spec: `Path.contours()` on a command list. -/
def contoursOf (cmds : List Cmd) : List (List Cmd) := contoursGo cmds []

/-- The contour loop of `vg._wiggleContours` on a path: one shared
random translation per sub-contour. -/
def wiggleContoursCmds (rand : ℕ → ℚ) (ox oy : ℚ) :
    List (List Cmd) → ℕ → (List Cmd × ℕ)
  | [], k => ([], k)
  | c :: rest, k =>
      let dx := (rand k - 1 / 2) * ox * 2
      let dy := (rand (k + 1) - 1 / 2) * oy * 2
      let t := Transform.identity.translate dx dy
      let (cs, k') := wiggleContoursCmds rand ox oy rest (k + 2)
      (c.map (Cmd.transform t) ++ cs, k')

mutual
/-- `vg._wiggleContours` dispatch: paths translate each contour by one
shared draw pair, groups recurse, arrays recurse elementwise, and any
other value falls into the zero-iteration loop, giving an empty
array. -/
def wiggleContoursSh (rand : ℕ → ℚ) (ox oy : ℚ) : Shape → ℕ → (Shape × ℕ)
  | .path cmds f st sw, k =>
      let (cs, k') := wiggleContoursCmds rand ox oy (contoursOf cmds) k
      (.path cs f st sw, k')
  | .group l, k =>
      let (ls, k') := wiggleContoursList rand ox oy l k
      (.group ls, k')
  | .array l, k =>
      let (ls, k') := wiggleContoursList rand ox oy l k
      (.array ls, k')
  | .point _ _, k => (.array .nil, k)
  | .rectObj _ _ _ _, k => (.array .nil, k)
  | .color _, k => (.array .nil, k)
termination_by structural s _ => s

/-- The elementwise loop of `vg._wiggleContours`. -/
def wiggleContoursList (rand : ℕ → ℚ) (ox oy : ℚ) : ShapeList → ℕ → (ShapeList × ℕ)
  | .nil, k => (.nil, k)
  | .cons s l, k =>
      let (ws, k') := wiggleContoursSh rand ox oy s k
      let (wl, k'') := wiggleContoursList rand ox oy l k'
      (.cons ws wl, k'')
termination_by structural l _ => l
end

/-- `vg.wiggleContours`: seed, normalize the offset, run the recursion
(a missing shape is dereferenced inside and throws). -/
def wiggleContours (shape : Option Shape) (offset : OffsetArg) (seed : Option ℕ)
    (ambient : ℕ) : Except JsErr (Option Shape) :=
  let sd := seed.getD ambient
  let rand := generator sd
  let o := offset.resolve
  match shape with
  | none => .error .typeError
  | some s => .ok (some (wiggleContoursSh rand o.1 o.2 s 0).1)

mutual
/-- `vg._wigglePaths` dispatch: a bare path is returned untouched, a
group recurses into its child array, an array translates each path
child by one shared draw pair, recurses into group children and drops
everything else; any other value returns undefined. -/
def wigglePathsSh (rand : ℕ → ℚ) (ox oy : ℚ) : Shape → ℕ → (Option Shape × ℕ)
  | .path cmds f st sw, k => (some (.path cmds f st sw), k)
  | .group l, k =>
      let (ls, k') := wigglePathsArr rand ox oy l k
      (some (.group ls), k')
  | .array l, k =>
      let (ls, k') := wigglePathsArr rand ox oy l k
      (some (.array ls), k')
  | .point _ _, k => (none, k)
  | .rectObj _ _ _ _, k => (none, k)
  | .color _, k => (none, k)
termination_by structural s _ => s

/-- The element loop of the array branch of `vg._wigglePaths`. -/
def wigglePathsArr (rand : ℕ → ℚ) (ox oy : ℚ) : ShapeList → ℕ → (ShapeList × ℕ)
  | .nil, k => (.nil, k)
  | .cons s l, k =>
      match s with
      | .path cmds f st sw =>
          let dx := (rand k - 1 / 2) * ox * 2
          let dy := (rand (k + 1) - 1 / 2) * oy * 2
          let t := Transform.identity.translate dx dy
          let (rest, k') := wigglePathsArr rand ox oy l (k + 2)
          (.cons (.path (cmds.map (Cmd.transform t)) f st sw) rest, k')
      | .group g =>
          let (sub, k') := wigglePathsSh rand ox oy (.group g) k
          let (rest, k'') := wigglePathsArr rand ox oy l k'
          match sub with
          | some subShape => (.cons subShape rest, k'')
          | none => (rest, k'')
      | _ => wigglePathsArr rand ox oy l k
termination_by structural sl _ => sl
end

/-- `vg.wigglePaths`: seed, normalize the offset, run the recursion (a
missing shape is dereferenced inside and throws; the result may itself
be undefined). -/
def wigglePaths (shape : Option Shape) (offset : OffsetArg) (seed : Option ℕ)
    (ambient : ℕ) : Except JsErr (Option Shape) :=
  let sd := seed.getD ambient
  let rand := generator sd
  let o := offset.resolve
  match shape with
  | none => .error .typeError
  | some s => .ok (wigglePathsSh rand o.1 o.2 s 0).1

/-- The per-point jitter of `wigglePoints` spelt out: the i-th point
consumes draws k+2i and k+2i+1, each axis moved by
`(rand() - 0.5) * 2 * offsetAxis`. -/
def wiggledPoints (rand : ℕ → ℚ) (ox oy : ℚ) : List Point → ℕ → List Point
  | [], _ => []
  | p :: ps, k =>
      ⟨p.x + (rand k - 1 / 2) * ox * 2, p.y + (rand (k + 1) - 1 / 2) * oy * 2⟩ ::
        wiggledPoints rand ox oy ps (k + 2)

theorem wigglePointsArr_spec (rand : ℕ → ℚ) (ox oy : ℚ) (pts : List Point) :
    ∀ k, wigglePointsArr rand ox oy (ShapeList.ofList (pts.map fun p => .point p.x p.y)) k
      = (ShapeList.ofList ((wiggledPoints rand ox oy pts k).map fun p => .point p.x p.y),
          k + 2 * pts.length) := by
  induction pts with
  | nil => intro k; simp [ShapeList.ofList, wigglePointsArr, wiggledPoints]
  | cons p t ih =>
    intro k
    simp only [List.map_cons, ShapeList.ofList, wigglePointsArr, wiggledPoints,
      Shape.getX, Shape.getY, ih (k + 2), List.length_cons]
    simp only [Prod.mk.injEq]
    exact ⟨trivial, by ring⟩

theorem wigglePoints_pointArray (pts : List Point) (ox oy : ℚ) (sd amb : ℕ) :
    wigglePoints (some (pointArray pts)) (.pair ox oy) (some sd) amb
      = .ok (some (pointArray (wiggledPoints (generator sd) ox oy pts 0))) := by
  cases pts with
  | nil => rfl
  | cons p t =>
    rw [wigglePoints]
    simp only [Option.getD, OffsetArg.resolve, pointArray, List.map_cons, ShapeList.ofList]
    have hp : (Shape.point p.x p.y).hasXY = true := rfl
    rw [wigglePointsSh, if_pos hp]
    rw [show ShapeList.cons (Shape.point p.x p.y)
          (ShapeList.ofList (t.map fun q => Shape.point q.x q.y))
        = ShapeList.ofList ((p :: t).map fun q => Shape.point q.x q.y) from rfl]
    rw [wigglePointsArr_spec (generator sd) ox oy (p :: t) 0]
    rfl

theorem wiggledPoints_range (rand : ℕ → ℚ) (ox oy : ℚ)
    (hr : ∀ i, 0 ≤ rand i ∧ rand i < 1) (hx : 0 ≤ ox) (hy : 0 ≤ oy) :
    ∀ (pts : List Point) (k : ℕ),
      List.Forall₂ (fun p q => |q.x - p.x| ≤ ox ∧ |q.y - p.y| ≤ oy) pts
        (wiggledPoints rand ox oy pts k) := by
  intro pts
  induction pts with
  | nil => intro k; exact .nil
  | cons p t ih =>
    intro k
    refine .cons ⟨?_, ?_⟩ (ih (k + 2))
    · have h1 := (hr k).1
      have h2 := (hr k).2
      have habs : |rand k - 1 / 2| ≤ 1 / 2 := abs_le.mpr ⟨by linarith, by linarith⟩
      have : |(rand k - 1 / 2) * ox * 2| = |rand k - 1 / 2| * ox * 2 := by
        rw [abs_mul, abs_mul, abs_of_nonneg hx]
        norm_num
      simp only [wiggledPoints, add_sub_cancel_left, this]
      nlinarith [mul_le_mul_of_nonneg_right habs hx]
    · have h1 := (hr (k + 1)).1
      have h2 := (hr (k + 1)).2
      have habs : |rand (k + 1) - 1 / 2| ≤ 1 / 2 := abs_le.mpr ⟨by linarith, by linarith⟩
      have : |(rand (k + 1) - 1 / 2) * oy * 2| = |rand (k + 1) - 1 / 2| * oy * 2 := by
        rw [abs_mul, abs_mul, abs_of_nonneg hy]
        norm_num
      simp only [wiggledPoints, add_sub_cancel_left, this]
      nlinarith [mul_le_mul_of_nonneg_right habs hy]

/-- Claim C9: with an explicitly supplied numeric seed the wiggle
operations are deterministic — the result does not depend on the
ambient `Math.random()` fallback draw — and on a point array each
per-axis jitter offset equals `(rand() - 0.5) * 2 * offsetAxis`, hence
lies within [-offsetAxis, +offsetAxis] for nonnegative offsets. -/
theorem wiggle_deterministic_C9 :
    (∀ (s : Shape) (off : OffsetArg) (sd a1 a2 : ℕ),
        wigglePoints (some s) off (some sd) a1 = wigglePoints (some s) off (some sd) a2)
    ∧ (∀ (s : Shape) (off : OffsetArg) (sd a1 a2 : ℕ),
        wiggleContours (some s) off (some sd) a1 = wiggleContours (some s) off (some sd) a2)
    ∧ (∀ (s : Shape) (off : OffsetArg) (sd a1 a2 : ℕ),
        wigglePaths (some s) off (some sd) a1 = wigglePaths (some s) off (some sd) a2)
    ∧ (∀ (pts : List Point) (ox oy : ℚ) (sd amb : ℕ),
        wigglePoints (some (pointArray pts)) (.pair ox oy) (some sd) amb
          = .ok (some (pointArray (wiggledPoints (generator sd) ox oy pts 0))))
    ∧ (∀ (pts : List Point) (ox oy : ℚ) (sd k : ℕ), 0 ≤ ox → 0 ≤ oy →
        List.Forall₂ (fun p q => |q.x - p.x| ≤ ox ∧ |q.y - p.y| ≤ oy) pts
          (wiggledPoints (generator sd) ox oy pts k)) := by
  refine ⟨fun _ _ _ _ _ => rfl, fun _ _ _ _ _ => rfl, fun _ _ _ _ _ => rfl,
    wigglePoints_pointArray, ?_⟩
  intro pts ox oy sd k hx hy
  exact wiggledPoints_range (generator sd) ox oy
    (fun i => ⟨generator_nonneg sd i, generator_lt_one sd i⟩) hx hy pts k

/-- Witness for claim C9's range conjunct at a concrete one-point array
with unit offsets. -/
theorem wiggle_deterministic_C9_witness :
    (0 : ℚ) ≤ 1 ∧
    List.Forall₂ (fun p q : Point => |q.x - p.x| ≤ (1 : ℚ) ∧ |q.y - p.y| ≤ (1 : ℚ))
      [⟨0, 0⟩] (wiggledPoints (generator 7) 1 1 [⟨0, 0⟩] 0) :=
  ⟨by norm_num,
    wiggle_deterministic_C9.2.2.2.2 [⟨0, 0⟩] 1 1 7 0 (by norm_num) (by norm_num)⟩

/-!  ## scatterPoints  -/

/-- Modelled from the spec: util/geo `pointInPolygon` — even-odd ray
crossing parity of the point against the polygon's edges (consecutive
vertices with wrap-around). -/
def pointInPolygon (pts : List Point) (x y : ℚ) : Bool :=
  let pairs :=
    match pts.getLast? with
    | none => []
    | some last => pts.zip (last :: pts.dropLast)
  pairs.foldl
    (fun c pq =>
      let pi := pq.1
      let pj := pq.2
      if (decide (pi.y > y) != decide (pj.y > y)) &&
          decide (x < (pj.x - pi.x) * (y - pi.y) / (pj.y - pi.y) + pi.x)
      then !c else c)
    false

/-- Modelled from the spec: `Path.points(amount, {closed: true})` —
sample points along the contour; they feed only the point-in-polygon
parity test, which no claim constrains, so the samples are modelled as
the contour's command coordinates. -/
def pathPointsModel (cmds : List Cmd) (_amount : ℕ) : List Point := coordsOf cmds

/-- The inner `while (tries > 0)` rejection loop of `vg.scatterPoints`:
draw a candidate in the bounds box, accept it when it falls inside an
odd number of contours, give up after the fuel (100 tries) is spent. -/
def scatterTry (paths : List (List Point)) (bx byy bw bh : ℚ) (rand : ℕ → ℚ) :
    ℕ → ℕ → Option Point × ℕ
  | 0, k => (none, k)
  | fuel + 1, k =>
      let x := bx + rand k * bw
      let y := byy + rand (k + 1) * bh
      let inContourCount := (paths.filter fun pl => pointInPolygon pl x y).length
      if inContourCount % 2 = 1 then (some ⟨x, y⟩, k + 2)
      else scatterTry paths bx byy bw bh rand fuel (k + 2)

/-- The outer `for (i = 0; i < amount; ...)` loop of
`vg.scatterPoints`: one rejection loop per requested point, dropped
candidates dropped silently. -/
def scatterLoop (paths : List (List Point)) (bx byy bw bh : ℚ) (rand : ℕ → ℚ) :
    ℕ → ℕ → List Point
  | 0, _ => []
  | n + 1, k =>
      match scatterTry paths bx byy bw bh rand 100 k with
      | (some p, k') => p :: scatterLoop paths bx byy bw bh rand n k'
      | (none, k') => scatterLoop paths bx byy bw bh rand n k'

/-- `vg.scatterPoints`: guard a missing shape; otherwise read the
shape's bounds and contours (methods that exist on a path; modelled
from the spec, any other value lacking them throws), pre-resample each
contour at 5 points per command, then rejection-sample `amount`
candidates. -/
def scatterPoints (shape : Option Shape) (amount : ℕ) (seed : Option ℕ)
    (ambient : ℕ) : Except JsErr (Option (List Point)) :=
  match shape with
  | none => .ok none
  | some (.path cmds _ _ _) =>
      let sd := seed.getD ambient
      let rand := generator sd
      let b := pathBounds cmds
      let paths := (contoursOf cmds).map fun c => pathPointsModel c (c.length * 5)
      .ok (some (scatterLoop paths b.x b.y b.width b.height rand amount 0))
  | some _ => .error .typeError

theorem foldl_min_le_foldl_max (f : Point → ℚ) (ps : List Point) :
    ∀ a b : ℚ, a ≤ b →
      ps.foldl (fun acc q => min acc (f q)) a ≤ ps.foldl (fun acc q => max acc (f q)) b := by
  induction ps with
  | nil => intro a b h; exact h
  | cons q t ih =>
    intro a b h
    exact ih _ _ (le_trans (min_le_left _ _) (le_trans h (le_max_left _ _)))

theorem rectOfPoints_width_nonneg (p : Point) (ps : List Point) :
    0 ≤ (rectOfPoints p ps).width ∧ 0 ≤ (rectOfPoints p ps).height := by
  constructor
  · have := foldl_min_le_foldl_max (fun q => q.x) ps p.x p.x le_rfl
    simp only [rectOfPoints]
    linarith
  · have := foldl_min_le_foldl_max (fun q => q.y) ps p.y p.y le_rfl
    simp only [rectOfPoints]
    linarith

theorem pathBounds_nonneg (cmds : List Cmd) :
    0 ≤ (pathBounds cmds).width ∧ 0 ≤ (pathBounds cmds).height := by
  unfold pathBounds
  cases coordsOf cmds with
  | nil => exact ⟨le_refl 0, le_refl 0⟩
  | cons p ps => exact rectOfPoints_width_nonneg p ps

/-- An accepted scatter candidate lies in the bounds box. -/
theorem scatterTry_mem (paths : List (List Point)) (bx byy bw bh : ℚ)
    (rand : ℕ → ℚ) (hr : ∀ i, 0 ≤ rand i ∧ rand i < 1)
    (hbw : 0 ≤ bw) (hbh : 0 ≤ bh) :
    ∀ (fuel k : ℕ) (p : Point) (k' : ℕ),
      scatterTry paths bx byy bw bh rand fuel k = (some p, k') →
      bx ≤ p.x ∧ p.x ≤ bx + bw ∧ byy ≤ p.y ∧ p.y ≤ byy + bh := by
  intro fuel
  induction fuel with
  | zero => intro k p k' h; simp [scatterTry] at h
  | succ n ih =>
    intro k p k' h
    rw [scatterTry] at h
    by_cases hc : ((paths.filter fun pl =>
        pointInPolygon pl (bx + rand k * bw) (byy + rand (k + 1) * bh)).length) % 2 = 1
    · rw [if_pos hc] at h
      simp only [Prod.mk.injEq, Option.some.injEq] at h
      obtain ⟨hp, _⟩ := h
      subst hp
      have h1 := (hr k).1
      have h2 := (hr k).2
      have h3 := (hr (k + 1)).1
      have h4 := (hr (k + 1)).2
      dsimp only
      refine ⟨by nlinarith, by nlinarith, by nlinarith, by nlinarith⟩
    · rw [if_neg hc] at h
      exact ih (k + 2) p k' h

/-- The scatter loop returns at most `amount` points, all in the
bounds box. -/
theorem scatterLoop_spec (paths : List (List Point)) (bx byy bw bh : ℚ)
    (rand : ℕ → ℚ) (hr : ∀ i, 0 ≤ rand i ∧ rand i < 1)
    (hbw : 0 ≤ bw) (hbh : 0 ≤ bh) :
    ∀ (n k : ℕ),
      (scatterLoop paths bx byy bw bh rand n k).length ≤ n
      ∧ ∀ p ∈ scatterLoop paths bx byy bw bh rand n k,
          bx ≤ p.x ∧ p.x ≤ bx + bw ∧ byy ≤ p.y ∧ p.y ≤ byy + bh := by
  intro n
  induction n with
  | zero => intro k; exact ⟨Nat.le_refl 0, by simp [scatterLoop]⟩
  | succ m ih =>
    intro k
    rw [scatterLoop]
    rcases ht : scatterTry paths bx byy bw bh rand 100 k with ⟨op, k'⟩
    cases op with
    | some p =>
      constructor
      · simpa using Nat.succ_le_succ (ih k').1
      · intro q hq
        rcases List.mem_cons.mp hq with hq | hq
        · subst hq
          exact scatterTry_mem paths bx byy bw bh rand hr hbw hbh 100 k q k' ht
        · exact (ih k').2 q hq
    | none =>
      exact ⟨Nat.le_trans (ih k').1 (Nat.le_succ m), (ih k').2⟩

/-- Claim C6: `vg.scatterPoints` on a path always succeeds, returns at
most `amount` points (a candidate that exhausts its 100 placement
attempts is dropped silently), and every returned point lies within
the shape's bounds. -/
theorem scatterPoints_C6 :
    ∀ (cmds : List Cmd) (f st : Option Color) (sw : ℚ) (n : ℕ)
      (sd : Option ℕ) (amb : ℕ),
      ∃ pts : List Point,
        scatterPoints (some (.path cmds f st sw)) n sd amb = .ok (some pts)
        ∧ pts.length ≤ n
        ∧ ∀ p ∈ pts,
            (pathBounds cmds).x ≤ p.x
            ∧ p.x ≤ (pathBounds cmds).x + (pathBounds cmds).width
            ∧ (pathBounds cmds).y ≤ p.y
            ∧ p.y ≤ (pathBounds cmds).y + (pathBounds cmds).height := by
  intro cmds f st sw n sd amb
  refine ⟨_, rfl, ?_, ?_⟩
  · exact (scatterLoop_spec _ _ _ _ _ (generator (sd.getD amb))
      (fun i => ⟨generator_nonneg _ i, generator_lt_one _ i⟩)
      (pathBounds_nonneg cmds).1 (pathBounds_nonneg cmds).2 n 0).1
  · exact (scatterLoop_spec _ _ _ _ _ (generator (sd.getD amb))
      (fun i => ⟨generator_nonneg _ i, generator_lt_one _ i⟩)
      (pathBounds_nonneg cmds).1 (pathBounds_nonneg cmds).2 n 0).2

/-!  ## the missing-shape contract  -/

/-- Counterexample to claim C1 as stated: `vg.translate` has no
missing-shape guard — it reads `shape.translate` off the argument — so
a missing/undefined shape raises a `TypeError` instead of returning
undefined. -/
theorem translate_undefined_throws_C1_cex :
    translate none ⟨1, 2⟩ = .error .typeError := rfl

/-- Claim C1 (amended): the operations with an explicit missing-shape
guard — fit, mirror, snap, align, scatterPoints — return undefined
without error, but translate, scale, rotate and skew dereference the
missing shape and raise a `TypeError`, and so does delete when its
scope is valid (its guard tests `=== null` only, so an undefined shape
falls through to the dereference; a null bounding still short-circuits
to null). -/
theorem vg_missing_shape_C1_amended :
    (∀ (p : Point) (w h : ℚ) (st : Bool), fit none p w h st = .ok none)
    ∧ (∀ (geo : Geo) (a : Option ℚ) (o : Option Point) (k : Bool),
        mirror geo none a o k = .ok none)
    ∧ (∀ (d : ℚ) (st : Option ℚ) (c : Option Point), snap none d st c = .ok none)
    ∧ (∀ (p : Point) (ha va : String), align none p ha va = .ok none)
    ∧ (∀ (n : ℕ) (sd : Option ℕ) (amb : ℕ), scatterPoints none n sd amb = .ok none)
    ∧ (∀ p : Point, translate none p = .error .typeError)
    ∧ (∀ (f : Point) (o : Option Point), scale none f o = .error .typeError)
    ∧ (∀ (trig : ℚ → ℚ × ℚ) (a : ℚ) (o : Option Point),
        rotate trig none a o = .error .typeError)
    ∧ (∀ (tq : ℚ → ℚ) (k : Point) (o : Option Point),
        skew tq none k o = .error .typeError)
    ∧ (∀ (b : JsArg Rect) (inv : Bool), b ≠ .jsnull →
        delete .undef b ("points") inv = .error .typeError
        ∧ delete .undef b ("paths") inv = .error .typeError) := by
  refine ⟨fun _ _ _ _ => rfl, fun _ _ _ _ => rfl, fun _ _ _ => rfl,
    fun _ _ _ => rfl, fun _ _ _ => rfl, fun _ => rfl, fun _ _ => rfl,
    fun _ _ _ => rfl, fun _ _ _ => rfl, ?_⟩
  intro b inv hb
  constructor <;> simp [delete, hb]

/-- Witness for the delete conjunct of the amended claim C1 at a
concrete non-null bounding rect. -/
theorem vg_missing_shape_C1_witness :
    (JsArg.val Rect.empty ≠ JsArg.jsnull) ∧
    delete .undef (.val Rect.empty) ("points") false = .error .typeError ∧
    delete .undef (.val Rect.empty) ("paths") false = .error .typeError :=
  ⟨by decide,
    (vg_missing_shape_C1_amended.2.2.2.2.2.2.2.2.2 (.val Rect.empty) false
      (by decide)).1,
    (vg_missing_shape_C1_amended.2.2.2.2.2.2.2.2.2 (.val Rect.empty) false
      (by decide)).2⟩

/-!  ## fit: bounds covariance machinery  -/

mutual
/-- The coordinate points a shape's bounds computation ranges over. -/
def coords : Shape → List Point
  | .point x y => [⟨x, y⟩]
  | .rectObj x y w h => [⟨x, y⟩, ⟨x + w, y + h⟩]
  | .color _ => []
  | .path cmds _ _ _ => coordsOf cmds
  | .group l => coordsList l
  | .array l => coordsList l
termination_by structural s => s

/-- `coords` concatenated over an array of shapes. -/
def coordsList : ShapeList → List Point
  | .nil => []
  | .cons s l => coords s ++ coordsList l
termination_by structural l => l
end

mutual
/-- The geometric fragment of the shape space where bounds are the
min/max hull of `coords`: points, nonempty paths, and nonempty
groups/arrays of such shapes (rect-like objects, colors, empty
containers, and empty paths are excluded). -/
def wfb : Shape → Bool
  | .point _ _ => true
  | .rectObj _ _ _ _ => false
  | .color _ => false
  | .path cmds _ _ _ => !(coordsOf cmds).isEmpty
  | .group .nil => false
  | .group (.cons s t) => wfbList (.cons s t)
  | .array .nil => false
  | .array (.cons s t) => wfbList (.cons s t)
termination_by structural s => s

/-- `wfb` over every element of an array. -/
def wfbList : ShapeList → Bool
  | .nil => true
  | .cons s l => wfb s && wfbList l
termination_by structural l => l
end

/-- Least x over a nonempty point list. -/
def xmin (p : Point) (ps : List Point) : ℚ := ps.foldl (fun a q => min a q.x) p.x

/-- Least y over a nonempty point list. -/
def ymin (p : Point) (ps : List Point) : ℚ := ps.foldl (fun a q => min a q.y) p.y

/-- Greatest x over a nonempty point list. -/
def xmax (p : Point) (ps : List Point) : ℚ := ps.foldl (fun a q => max a q.x) p.x

/-- Greatest y over a nonempty point list. -/
def ymax (p : Point) (ps : List Point) : ℚ := ps.foldl (fun a q => max a q.y) p.y

theorem rectOfPoints_eq (p : Point) (ps : List Point) :
    rectOfPoints p ps
      = ⟨xmin p ps, ymin p ps, xmax p ps - xmin p ps, ymax p ps - ymin p ps⟩ := rfl

theorem foldl_min_pull (f : Point → ℚ) :
    ∀ (l : List Point) (a b : ℚ),
      min a (l.foldl (fun acc q => min acc (f q)) b)
        = l.foldl (fun acc q => min acc (f q)) (min a b) := by
  intro l
  induction l with
  | nil => intro a b; rfl
  | cons q t ih =>
    intro a b
    simp only [List.foldl_cons]
    rw [ih a (min b (f q)), min_assoc]

theorem foldl_max_pull (f : Point → ℚ) :
    ∀ (l : List Point) (a b : ℚ),
      max a (l.foldl (fun acc q => max acc (f q)) b)
        = l.foldl (fun acc q => max acc (f q)) (max a b) := by
  intro l
  induction l with
  | nil => intro a b; rfl
  | cons q t ih =>
    intro a b
    simp only [List.foldl_cons]
    rw [ih a (max b (f q)), max_assoc]

theorem xmin_append (p q : Point) (ps qs : List Point) :
    min (xmin p ps) (xmin q qs) = xmin p (ps ++ q :: qs) := by
  rw [xmin, xmin, xmin, List.foldl_append, List.foldl_cons]
  exact foldl_min_pull (fun r => r.x) qs _ _

theorem ymin_append (p q : Point) (ps qs : List Point) :
    min (ymin p ps) (ymin q qs) = ymin p (ps ++ q :: qs) := by
  rw [ymin, ymin, ymin, List.foldl_append, List.foldl_cons]
  exact foldl_min_pull (fun r => r.y) qs _ _

theorem xmax_append (p q : Point) (ps qs : List Point) :
    max (xmax p ps) (xmax q qs) = xmax p (ps ++ q :: qs) := by
  rw [xmax, xmax, xmax, List.foldl_append, List.foldl_cons]
  exact foldl_max_pull (fun r => r.x) qs _ _

theorem ymax_append (p q : Point) (ps qs : List Point) :
    max (ymax p ps) (ymax q qs) = ymax p (ps ++ q :: qs) := by
  rw [ymax, ymax, ymax, List.foldl_append, List.foldl_cons]
  exact foldl_max_pull (fun r => r.y) qs _ _

theorem rectOfPoints_right (p : Point) (ps : List Point) :
    (rectOfPoints p ps).x + (rectOfPoints p ps).width = xmax p ps := by
  rw [rectOfPoints_eq]
  ring

theorem rectOfPoints_bottom (p : Point) (ps : List Point) :
    (rectOfPoints p ps).y + (rectOfPoints p ps).height = ymax p ps := by
  rw [rectOfPoints_eq]
  ring

/-- Uniting the hulls of two nonempty point lists is the hull of their
concatenation. -/
theorem rectOfPoints_unite (p q : Point) (ps qs : List Point) :
    (rectOfPoints p ps).unite (rectOfPoints q qs) = rectOfPoints p (ps ++ q :: qs) := by
  have hr1 := rectOfPoints_right p ps
  have hr2 := rectOfPoints_right q qs
  have hb1 := rectOfPoints_bottom p ps
  have hb2 := rectOfPoints_bottom q qs
  rw [Rect.unite, hr1, hr2, hb1, hb2]
  rw [rectOfPoints_eq p ps, rectOfPoints_eq q qs, rectOfPoints_eq p (ps ++ q :: qs)]
  simp only [Rect.mk.injEq]
  refine ⟨xmin_append p q ps qs, ymin_append p q ps qs, ?_, ?_⟩
  · rw [xmax_append p q ps qs, xmin_append p q ps qs]
  · rw [ymax_append p q ps qs, ymin_append p q ps qs]

theorem wfb_hasRGB_false : ∀ s : Shape, wfb s = true → s.hasRGB = false := by
  intro s h
  cases s <;> first
    | rfl
    | exact absurd h (by simp [wfb])

mutual
/-- On the geometric fragment, `vg.bounds` succeeds and returns the
min/max hull of the shape's coordinate points. -/
theorem boundsWf : ∀ s : Shape, wfb s = true →
    ∃ (p : Point) (ps : List Point),
      coords s = p :: ps ∧ bounds s = .ok (rectOfPoints p ps)
  | .point x y, _ => by
    refine ⟨⟨x, y⟩, [], rfl, ?_⟩
    simp [bounds, rectOfPoints_eq, xmin, ymin, xmax, ymax]
  | .rectObj x y w h, hwf => absurd hwf (by simp [wfb])
  | .color c, hwf => absurd hwf (by simp [wfb])
  | .path cmds f st sw, hwf => by
    rcases hc : coordsOf cmds with _ | ⟨p, ps⟩
    · rw [wfb, hc] at hwf
      exact absurd hwf (by simp)
    · exact ⟨p, ps, hc, by rw [bounds, pathBounds, hc]⟩
  | .group .nil, hwf => absurd hwf (by simp [wfb])
  | .group (.cons s t), hwf => by
    rw [wfb] at hwf
    simp only [wfbList, Bool.and_eq_true] at hwf
    obtain ⟨hs, ht⟩ := hwf
    obtain ⟨q, qs, hcs, hbs⟩ := boundsWf s hs
    refine ⟨q, qs ++ coordsList t, ?_, ?_⟩
    · show coordsList (.cons s t) = _
      rw [coordsList, hcs]
      simp
    · show boundsList (.cons s t) none = _
      rw [boundsList, hbs]
      exact boundsListWf t ht q qs
  | .array .nil, hwf => absurd hwf (by simp [wfb])
  | .array (.cons s t), hwf => by
    rw [wfb] at hwf
    have hwf' := hwf
    simp only [wfbList, Bool.and_eq_true] at hwf'
    obtain ⟨hs, ht⟩ := hwf'
    obtain ⟨q, qs, hcs, hbs⟩ := boundsWf s hs
    refine ⟨q, qs ++ coordsList t, ?_, ?_⟩
    · show coordsList (.cons s t) = _
      rw [coordsList, hcs]
      simp
    · rw [bounds, if_neg (by simp [wfb_hasRGB_false s hs])]
      rw [boundsList, hbs]
      exact boundsListWf t ht q qs
termination_by structural s _ => s

/-- The array accumulation loop of `vg.bounds` extends the hull by the
elements' coordinate points. -/
theorem boundsListWf : ∀ l : ShapeList, wfbList l = true →
    ∀ (p : Point) (ps : List Point),
      boundsList l (some (rectOfPoints p ps)) = .ok (rectOfPoints p (ps ++ coordsList l))
  | .nil, _ => by
    intro p ps
    rw [boundsList]
    rw [show coordsList .nil = [] from rfl, List.append_nil]
  | .cons s t, hwf => by
    intro p ps
    simp only [wfbList, Bool.and_eq_true] at hwf
    obtain ⟨hs, ht⟩ := hwf
    obtain ⟨q, qs, hcs, hbs⟩ := boundsWf s hs
    rw [boundsList, hbs]
    show boundsList t (some ((rectOfPoints p ps).unite (rectOfPoints q qs))) = _
    rw [rectOfPoints_unite, boundsListWf t ht p (ps ++ q :: qs)]
    rw [show coordsList (.cons s t) = coords s ++ coordsList t from rfl, hcs]
    simp
termination_by structural l _ => l
end

theorem cmd_transform_coords (t : Transform) (c : Cmd) :
    (Cmd.transform t c).coords = c.coords.map fun p => t.apply p.x p.y := by
  cases c <;> rfl

theorem coordsOf_map_transform (t : Transform) :
    ∀ cmds : List Cmd,
      coordsOf (cmds.map (Cmd.transform t)) = (coordsOf cmds).map fun p => t.apply p.x p.y := by
  intro cmds
  induction cmds with
  | nil => rfl
  | cons c rest ih =>
    simp only [List.map_cons, coordsOf, ih, cmd_transform_coords, List.map_append]

mutual
/-- Transforming a well-formed shape maps its coordinate points. -/
theorem coords_transform (t : Transform) : ∀ s : Shape, wfb s = true →
    coords (t.transformShape s) = (coords s).map fun p => t.apply p.x p.y
  | .point x y, _ => rfl
  | .rectObj x y w h, hwf => absurd hwf (by simp [wfb])
  | .color c, hwf => absurd hwf (by simp [wfb])
  | .path cmds f st sw, _ => by
    show coordsOf (cmds.map (Cmd.transform t)) = _
    exact coordsOf_map_transform t cmds
  | .group .nil, hwf => absurd hwf (by simp [wfb])
  | .group (.cons s l), hwf => by
    rw [wfb] at hwf
    show coordsList (Transform.transformList t (.cons s l)) = _
    exact coordsList_transform t (.cons s l) hwf
  | .array .nil, hwf => absurd hwf (by simp [wfb])
  | .array (.cons s l), hwf => by
    rw [wfb] at hwf
    show coordsList (Transform.transformList t (.cons s l)) = _
    exact coordsList_transform t (.cons s l) hwf
termination_by structural s _ => s

/-- Transforming a list of well-formed shapes maps its coordinate
points. -/
theorem coordsList_transform (t : Transform) : ∀ l : ShapeList, wfbList l = true →
    coordsList (Transform.transformList t l) = (coordsList l).map fun p => t.apply p.x p.y
  | .nil, _ => rfl
  | .cons s l, hwf => by
    simp only [wfbList, Bool.and_eq_true] at hwf
    obtain ⟨hs, hl⟩ := hwf
    show coords (t.transformShape s) ++ coordsList (Transform.transformList t l) = _
    rw [coords_transform t s hs, coordsList_transform t l hl]
    rw [show coordsList (.cons s l) = coords s ++ coordsList l from rfl, List.map_append]
termination_by structural l _ => l
end

mutual
/-- Transforming preserves well-formedness. -/
theorem wfb_transform (t : Transform) : ∀ s : Shape, wfb s = true →
    wfb (t.transformShape s) = true
  | .point x y, _ => rfl
  | .rectObj x y w h, hwf => absurd hwf (by simp [wfb])
  | .color c, hwf => absurd hwf (by simp [wfb])
  | .path cmds f st sw, hwf => by
    show (!(coordsOf (cmds.map (Cmd.transform t))).isEmpty) = true
    rw [coordsOf_map_transform t cmds]
    rw [wfb] at hwf
    rcases h : coordsOf cmds with _ | ⟨p, ps⟩
    · rw [h] at hwf; exact absurd hwf (by simp)
    · rfl
  | .group .nil, hwf => absurd hwf (by simp [wfb])
  | .group (.cons s l), hwf => by
    rw [wfb] at hwf
    show wfb (.group (.cons (t.transformShape s) (Transform.transformList t l))) = true
    rw [wfb]
    exact wfbList_transform t (.cons s l) hwf
  | .array .nil, hwf => absurd hwf (by simp [wfb])
  | .array (.cons s l), hwf => by
    rw [wfb] at hwf
    show wfb (.array (.cons (t.transformShape s) (Transform.transformList t l))) = true
    rw [wfb]
    exact wfbList_transform t (.cons s l) hwf
termination_by structural s _ => s

/-- Transforming preserves well-formedness of shape lists. -/
theorem wfbList_transform (t : Transform) : ∀ l : ShapeList, wfbList l = true →
    wfbList (Transform.transformList t l) = true
  | .nil, _ => rfl
  | .cons s l, hwf => by
    simp only [wfbList, Bool.and_eq_true] at hwf
    obtain ⟨hs, hl⟩ := hwf
    show wfbList (.cons (t.transformShape s) (Transform.transformList t l)) = true
    rw [wfbList]
    simp [wfb_transform t s hs, wfbList_transform t l hl]
termination_by structural l _ => l
end

theorem min_affine_nonneg (s c x y : ℚ) (hs : 0 ≤ s) :
    min (s * x + c) (s * y + c) = s * min x y + c := by
  rcases le_total x y with h | h
  · rw [min_eq_left (by nlinarith), min_eq_left h]
  · rw [min_eq_right (by nlinarith), min_eq_right h]

theorem max_affine_nonneg (s c x y : ℚ) (hs : 0 ≤ s) :
    max (s * x + c) (s * y + c) = s * max x y + c := by
  rcases le_total x y with h | h
  · rw [max_eq_right (by nlinarith), max_eq_right h]
  · rw [max_eq_left (by nlinarith), max_eq_left h]

theorem min_affine_nonpos (s c x y : ℚ) (hs : s ≤ 0) :
    min (s * x + c) (s * y + c) = s * max x y + c := by
  rcases le_total x y with h | h
  · rw [min_eq_right (by nlinarith), max_eq_right h]
  · rw [min_eq_left (by nlinarith), max_eq_left h]

theorem max_affine_nonpos (s c x y : ℚ) (hs : s ≤ 0) :
    max (s * x + c) (s * y + c) = s * min x y + c := by
  rcases le_total x y with h | h
  · rw [max_eq_left (by nlinarith), min_eq_left h]
  · rw [max_eq_right (by nlinarith), min_eq_right h]

theorem foldl_min_affine_nonneg (f : Point → ℚ) (s c : ℚ) (hs : 0 ≤ s) :
    ∀ (l : List Point) (a : ℚ),
      l.foldl (fun acc q => min acc (s * f q + c)) (s * a + c)
        = s * l.foldl (fun acc q => min acc (f q)) a + c := by
  intro l
  induction l with
  | nil => intro a; rfl
  | cons q t ih =>
    intro a
    simp only [List.foldl_cons]
    rw [min_affine_nonneg _ _ _ _ hs, ih (min a (f q))]

theorem foldl_max_affine_nonneg (f : Point → ℚ) (s c : ℚ) (hs : 0 ≤ s) :
    ∀ (l : List Point) (a : ℚ),
      l.foldl (fun acc q => max acc (s * f q + c)) (s * a + c)
        = s * l.foldl (fun acc q => max acc (f q)) a + c := by
  intro l
  induction l with
  | nil => intro a; rfl
  | cons q t ih =>
    intro a
    simp only [List.foldl_cons]
    rw [max_affine_nonneg _ _ _ _ hs, ih (max a (f q))]

theorem foldl_min_affine_nonpos (f : Point → ℚ) (s c : ℚ) (hs : s ≤ 0) :
    ∀ (l : List Point) (a : ℚ),
      l.foldl (fun acc q => min acc (s * f q + c)) (s * a + c)
        = s * l.foldl (fun acc q => max acc (f q)) a + c := by
  intro l
  induction l with
  | nil => intro a; rfl
  | cons q t ih =>
    intro a
    simp only [List.foldl_cons]
    rw [min_affine_nonpos _ _ _ _ hs, ih (max a (f q))]

theorem foldl_max_affine_nonpos (f : Point → ℚ) (s c : ℚ) (hs : s ≤ 0) :
    ∀ (l : List Point) (a : ℚ),
      l.foldl (fun acc q => max acc (s * f q + c)) (s * a + c)
        = s * l.foldl (fun acc q => min acc (f q)) a + c := by
  intro l
  induction l with
  | nil => intro a; rfl
  | cons q t ih =>
    intro a
    simp only [List.foldl_cons]
    rw [max_affine_nonpos _ _ _ _ hs, ih (min a (f q))]

/-- The hull of an affinely mapped point list, for a uniform diagonal
map with nonnegative factor. -/
theorem rectOfPoints_map_affine_nonneg (m c1 c2 : ℚ) (hm : 0 ≤ m)
    (p : Point) (ps : List Point) :
    rectOfPoints ⟨m * p.x + c1, m * p.y + c2⟩
        (ps.map fun q => ⟨m * q.x + c1, m * q.y + c2⟩)
      = ⟨m * xmin p ps + c1, m * ymin p ps + c2,
          m * (xmax p ps - xmin p ps), m * (ymax p ps - ymin p ps)⟩ := by
  rw [rectOfPoints_eq]
  simp only [Rect.mk.injEq]
  have hxmin : xmin ⟨m * p.x + c1, m * p.y + c2⟩
      (ps.map fun q => ⟨m * q.x + c1, m * q.y + c2⟩) = m * xmin p ps + c1 := by
    rw [xmin, xmin, List.foldl_map]
    exact foldl_min_affine_nonneg (fun q => q.x) m c1 hm ps p.x
  have hymin : ymin ⟨m * p.x + c1, m * p.y + c2⟩
      (ps.map fun q => ⟨m * q.x + c1, m * q.y + c2⟩) = m * ymin p ps + c2 := by
    rw [ymin, ymin, List.foldl_map]
    exact foldl_min_affine_nonneg (fun q => q.y) m c2 hm ps p.y
  have hxmax : xmax ⟨m * p.x + c1, m * p.y + c2⟩
      (ps.map fun q => ⟨m * q.x + c1, m * q.y + c2⟩) = m * xmax p ps + c1 := by
    rw [xmax, xmax, List.foldl_map]
    exact foldl_max_affine_nonneg (fun q => q.x) m c1 hm ps p.x
  have hymax : ymax ⟨m * p.x + c1, m * p.y + c2⟩
      (ps.map fun q => ⟨m * q.x + c1, m * q.y + c2⟩) = m * ymax p ps + c2 := by
    rw [ymax, ymax, List.foldl_map]
    exact foldl_max_affine_nonneg (fun q => q.y) m c2 hm ps p.y
  refine ⟨hxmin, hymin, ?_, ?_⟩
  · rw [hxmax, hxmin]; ring
  · rw [hymax, hymin]; ring

/-- The hull of an affinely mapped point list, for a uniform diagonal
map with nonpositive factor (the hull flips). -/
theorem rectOfPoints_map_affine_nonpos (m c1 c2 : ℚ) (hm : m ≤ 0)
    (p : Point) (ps : List Point) :
    rectOfPoints ⟨m * p.x + c1, m * p.y + c2⟩
        (ps.map fun q => ⟨m * q.x + c1, m * q.y + c2⟩)
      = ⟨m * xmax p ps + c1, m * ymax p ps + c2,
          m * (xmin p ps - xmax p ps), m * (ymin p ps - ymax p ps)⟩ := by
  rw [rectOfPoints_eq]
  simp only [Rect.mk.injEq]
  have hxmin : xmin ⟨m * p.x + c1, m * p.y + c2⟩
      (ps.map fun q => ⟨m * q.x + c1, m * q.y + c2⟩) = m * xmax p ps + c1 := by
    rw [xmin, xmax, List.foldl_map]
    exact foldl_min_affine_nonpos (fun q => q.x) m c1 hm ps p.x
  have hymin : ymin ⟨m * p.x + c1, m * p.y + c2⟩
      (ps.map fun q => ⟨m * q.x + c1, m * q.y + c2⟩) = m * ymax p ps + c2 := by
    rw [ymin, ymax, List.foldl_map]
    exact foldl_min_affine_nonpos (fun q => q.y) m c2 hm ps p.y
  have hxmax : xmax ⟨m * p.x + c1, m * p.y + c2⟩
      (ps.map fun q => ⟨m * q.x + c1, m * q.y + c2⟩) = m * xmin p ps + c1 := by
    rw [xmax, xmin, List.foldl_map]
    exact foldl_max_affine_nonpos (fun q => q.x) m c1 hm ps p.x
  have hymax : ymax ⟨m * p.x + c1, m * p.y + c2⟩
      (ps.map fun q => ⟨m * q.x + c1, m * q.y + c2⟩) = m * ymin p ps + c2 := by
    rw [ymax, ymin, List.foldl_map]
    exact foldl_max_affine_nonpos (fun q => q.y) m c2 hm ps p.y
  refine ⟨hxmin, hymin, ?_, ?_⟩
  · rw [hxmax, hxmin]; ring
  · rw [hymax, hymin]; ring

/-- The translate–scale–translate transform `vg.fit` builds in the
non-stretch, non-degenerate case: uniform factor
`min(width/boundsWidth, height/boundsHeight)` on both axes. -/
def fitTransform (pos : Point) (b : Rect) (w h : ℚ) : Transform :=
  ((Transform.identity.translate pos.x pos.y).scale
      (min (w / b.width) (h / b.height)) (min (w / b.width) (h / b.height))).translate
    (-b.width / 2 - b.x) (-b.height / 2 - b.y)

theorem fitTransform_apply (pos : Point) (b : Rect) (w h x y : ℚ) :
    (fitTransform pos b w h).apply x y
      = ⟨min (w / b.width) (h / b.height) * x
          + (pos.x - min (w / b.width) (h / b.height) * (b.x + b.width / 2)),
        min (w / b.width) (h / b.height) * y
          + (pos.y - min (w / b.width) (h / b.height) * (b.y + b.height / 2))⟩ := by
  simp only [fitTransform, Transform.identity, Transform.translate, Transform.scale,
    Transform.apply, Point.mk.injEq]
  constructor <;> ring

/-- On a shape whose bounds exceed the degeneracy threshold on both
axes, `vg.fit` without stretch applies exactly `fitTransform`. -/
theorem fit_eval (s : Shape) (b : Rect) (pos : Point) (w h : ℚ)
    (hb : bounds s = .ok b) (hw : fitEps < b.width) (hh : fitEps < b.height) :
    fit (some s) pos w h false
      = .ok (some ((fitTransform pos b w h).transformShape s)) := by
  have h0w : (0 : ℚ) < b.width := lt_trans (by norm_num [fitEps]) hw
  have h0h : (0 : ℚ) < b.height := lt_trans (by norm_num [fitEps]) hh
  simp only [fit, hb, fitRawScaleX, fitRawScaleY, fitTransform]
  rw [if_pos hw, if_pos hh, if_pos h0w, if_pos h0h]
  simp only [Bool.not_false, if_true]

/-- The hull of the fit-transformed coordinate points preserves the
aspect ratio of the original hull and is centered on the target
position. -/
theorem fit_bounds_rect (px py w h : ℚ) (p : Point) (ps : List Point) :
    ∃ b' : Rect,
      rectOfPoints ((fitTransform ⟨px, py⟩ (rectOfPoints p ps) w h).apply p.x p.y)
          (ps.map fun q => (fitTransform ⟨px, py⟩ (rectOfPoints p ps) w h).apply q.x q.y)
        = b'
      ∧ b'.width * (rectOfPoints p ps).height = b'.height * (rectOfPoints p ps).width
      ∧ b'.centerPoint = ⟨px, py⟩ := by
  rw [show ((fitTransform ⟨px, py⟩ (rectOfPoints p ps) w h).apply p.x p.y)
      = (⟨min (w / (rectOfPoints p ps).width) (h / (rectOfPoints p ps).height) * p.x
          + (px - min (w / (rectOfPoints p ps).width) (h / (rectOfPoints p ps).height)
              * ((rectOfPoints p ps).x + (rectOfPoints p ps).width / 2)),
        min (w / (rectOfPoints p ps).width) (h / (rectOfPoints p ps).height) * p.y
          + (py - min (w / (rectOfPoints p ps).width) (h / (rectOfPoints p ps).height)
              * ((rectOfPoints p ps).y + (rectOfPoints p ps).height / 2))⟩ : Point)
    from fitTransform_apply ⟨px, py⟩ (rectOfPoints p ps) w h p.x p.y]
  rw [show (fun q : Point =>
        (fitTransform ⟨px, py⟩ (rectOfPoints p ps) w h).apply q.x q.y)
      = (fun q : Point =>
        (⟨min (w / (rectOfPoints p ps).width) (h / (rectOfPoints p ps).height) * q.x
          + (px - min (w / (rectOfPoints p ps).width) (h / (rectOfPoints p ps).height)
              * ((rectOfPoints p ps).x + (rectOfPoints p ps).width / 2)),
        min (w / (rectOfPoints p ps).width) (h / (rectOfPoints p ps).height) * q.y
          + (py - min (w / (rectOfPoints p ps).width) (h / (rectOfPoints p ps).height)
              * ((rectOfPoints p ps).y + (rectOfPoints p ps).height / 2))⟩ : Point))
    from funext fun q => fitTransform_apply ⟨px, py⟩ (rectOfPoints p ps) w h q.x q.y]
  rcases le_total 0
      (min (w / (rectOfPoints p ps).width) (h / (rectOfPoints p ps).height)) with
    hm0 | hm0
  · rw [rectOfPoints_map_affine_nonneg _ _ _ hm0 p ps]
    refine ⟨_, rfl, ?_, ?_⟩
    · rw [rectOfPoints_eq p ps]
      dsimp only
      ring
    · rw [rectOfPoints_eq p ps, Rect.centerPoint]
      dsimp only
      simp only [Point.mk.injEq]
      constructor <;> ring
  · rw [rectOfPoints_map_affine_nonpos _ _ _ hm0 p ps]
    refine ⟨_, rfl, ?_, ?_⟩
    · rw [rectOfPoints_eq p ps]
      dsimp only
      ring
    · rw [rectOfPoints_eq p ps, Rect.centerPoint]
      dsimp only
      simp only [Point.mk.injEq]
      constructor <;> ring

/-- Claim C3 (amended): for a well-formed shape whose bounds width and
height exceed the 1e-12 clamping threshold, `fit(S, pos, w, h, false)`
applies exactly one uniform scale `min(w/boundsWidth, h/boundsHeight)`
on both axes, the result's bounds preserve the original aspect ratio
(stated cross-multiplied) and are centered at `pos`; and a degenerate
(zero) bounds dimension yields the scale factor `Number.MAX_VALUE` on
that axis instead of a division by zero. -/
theorem fit_uniform_C3_amended :
    (∀ (s : Shape) (b : Rect) (pos : Point) (w h : ℚ),
        wfb s = true → bounds s = .ok b → fitEps < b.width → fitEps < b.height →
        ∃ b' : Rect,
          fit (some s) pos w h false
            = .ok (some ((fitTransform pos b w h).transformShape s))
          ∧ bounds ((fitTransform pos b w h).transformShape s) = .ok b'
          ∧ b'.width * b.height = b'.height * b.width
          ∧ b'.centerPoint = pos)
    ∧ (∀ w : ℚ, fitRawScaleX 0 w = jsMaxValue)
    ∧ (∀ h : ℚ, fitRawScaleY 0 h = jsMaxValue) := by
  refine ⟨?_, fun w => by simp [fitRawScaleX], fun h => by simp [fitRawScaleY]⟩
  intro s b pos w h hwf hb hw hh
  obtain ⟨px, py⟩ := pos
  obtain ⟨p, ps, hcs, hbs⟩ := boundsWf s hwf
  have hbb : b = rectOfPoints p ps := by
    rw [hb] at hbs
    injection hbs
  subst hbb
  have ha := fit_eval s _ ⟨px, py⟩ w h hb hw hh
  have hwf' := wfb_transform (fitTransform ⟨px, py⟩ (rectOfPoints p ps) w h) s hwf
  obtain ⟨p', ps', hcs', hbs'⟩ := boundsWf _ hwf'
  rw [coords_transform _ s hwf, hcs, List.map_cons] at hcs'
  injection hcs' with hp' hps'
  subst hp'
  subst hps'
  obtain ⟨b', hEq, hRatio, hCenter⟩ := fit_bounds_rect px py w h p ps
  rw [hEq] at hbs'
  exact ⟨b', ha, hbs', hRatio, hCenter⟩

/-- Counterexample to claim C3 as stated: a two-point shape whose
bounds width and height are positive (10⁻¹³) but below the 1e-12 clamp
threshold is treated as degenerate — both axes get the
`Number.MAX_VALUE` factor — and the fitted result's bounds are nowhere
near centered on the requested position (0, 0). -/
theorem fit_subthreshold_C3_cex :
    (0 : ℚ) < 1 / 10 ^ 13
    ∧ bounds (pointArray [⟨0, 0⟩, ⟨1 / 10 ^ 13, 1 / 10 ^ 13⟩])
        = .ok ⟨0, 0, 1 / 10 ^ 13, 1 / 10 ^ 13⟩
    ∧ fit (some (pointArray [⟨0, 0⟩, ⟨1 / 10 ^ 13, 1 / 10 ^ 13⟩])) ⟨0, 0⟩ 1 1 false
        = .ok (some (pointArray [⟨0, 0⟩,
            ⟨(2 ^ 53 - 1) * 2 ^ 971 / 10 ^ 13, (2 ^ 53 - 1) * 2 ^ 971 / 10 ^ 13⟩]))
    ∧ bounds (pointArray [⟨0, 0⟩,
          ⟨(2 ^ 53 - 1) * 2 ^ 971 / 10 ^ 13, (2 ^ 53 - 1) * 2 ^ 971 / 10 ^ 13⟩])
        = .ok ⟨0, 0, (2 ^ 53 - 1) * 2 ^ 971 / 10 ^ 13, (2 ^ 53 - 1) * 2 ^ 971 / 10 ^ 13⟩
    ∧ (Rect.centerPoint ⟨0, 0, (2 ^ 53 - 1) * 2 ^ 971 / 10 ^ 13,
          (2 ^ 53 - 1) * 2 ^ 971 / 10 ^ 13⟩) ≠ (⟨0, 0⟩ : Point) := by
  refine ⟨by norm_num, ?_, ?_, ?_, ?_⟩
  · norm_num [pointArray, ShapeList.ofList, bounds, boundsList, Rect.unite,
      Shape.hasRGB, Rect.empty]
  · norm_num [fit, pointArray, ShapeList.ofList, bounds, boundsList, Rect.unite,
      Shape.hasRGB, Rect.empty, fitEps, fitRawScaleX, fitRawScaleY, jsMaxValue,
      Transform.identity, Transform.translate, Transform.scale,
      Transform.transformShape, Transform.transformList, Transform.apply]
  · norm_num [pointArray, ShapeList.ofList, bounds, boundsList, Rect.unite,
      Shape.hasRGB, Rect.empty]
  · norm_num [Rect.centerPoint, Point.mk.injEq]

/-- Witness for the amended claim C3 at the spec's 4×3 example shape
fitted into an 8×3 box at (10, 20): the uniform factor is
min(8/4, 3/3) = 1. -/
theorem fit_uniform_C3_witness :
    wfb (pointArray [⟨0, 0⟩, ⟨4, 0⟩, ⟨4, 3⟩, ⟨0, 3⟩]) = true
    ∧ bounds (pointArray [⟨0, 0⟩, ⟨4, 0⟩, ⟨4, 3⟩, ⟨0, 3⟩]) = .ok ⟨0, 0, 4, 3⟩
    ∧ fitEps < (4 : ℚ) ∧ fitEps < (3 : ℚ)
    ∧ ∃ b' : Rect,
        fit (some (pointArray [⟨0, 0⟩, ⟨4, 0⟩, ⟨4, 3⟩, ⟨0, 3⟩])) ⟨10, 20⟩ 8 3 false
          = .ok (some ((fitTransform ⟨10, 20⟩ ⟨0, 0, 4, 3⟩ 8 3).transformShape
              (pointArray [⟨0, 0⟩, ⟨4, 0⟩, ⟨4, 3⟩, ⟨0, 3⟩])))
        ∧ bounds ((fitTransform ⟨10, 20⟩ ⟨0, 0, 4, 3⟩ 8 3).transformShape
            (pointArray [⟨0, 0⟩, ⟨4, 0⟩, ⟨4, 3⟩, ⟨0, 3⟩])) = .ok b'
        ∧ b'.width * (3 : ℚ) = b'.height * 4
        ∧ b'.centerPoint = ⟨10, 20⟩ := by
  have hwf : wfb (pointArray [⟨0, 0⟩, ⟨4, 0⟩, ⟨4, 3⟩, ⟨0, 3⟩]) = true := by decide
  have hb : bounds (pointArray [⟨0, 0⟩, ⟨4, 0⟩, ⟨4, 3⟩, ⟨0, 3⟩]) = .ok ⟨0, 0, 4, 3⟩ := by
    norm_num [pointArray, ShapeList.ofList, bounds, boundsList, Rect.unite,
      Shape.hasRGB, Rect.empty]
  have h1 : fitEps < (4 : ℚ) := by norm_num [fitEps]
  have h2 : fitEps < (3 : ℚ) := by norm_num [fitEps]
  obtain ⟨b', hfit, hbounds, hratio, hcenter⟩ :=
    fit_uniform_C3_amended.1 (pointArray [⟨0, 0⟩, ⟨4, 0⟩, ⟨4, 3⟩, ⟨0, 3⟩])
      ⟨0, 0, 4, 3⟩ ⟨10, 20⟩ 8 3 hwf hb h1 h2
  exact ⟨hwf, hb, h1, h2, b', hfit, hbounds, hratio, hcenter⟩

/-!  ## compound  -/

/-- Modelled from the spec: the per-segment subdivision count of
`Path.resampleByLength`, using the coordinate-wise (Chebyshev) length
as a rational stand-in for the transcendental Euclidean arc length (for
the axis-aligned segments the claims use, the two coincide). -/
def segN (p q : Point) (maxLength : ℚ) : ℕ :=
  max 1 (⌈max |q.x - p.x| |q.y - p.y| / maxLength⌉.toNat)

/-- Modelled from the spec: one segment of `Path.resampleByLength` —
uniformly spaced sample points (excluding the start, including the
end), so consecutive points are at most `maxLength` apart. -/
def resampleSegPoints (p q : Point) (maxLength : ℚ) : List Point :=
  (List.range (segN p q maxLength)).map fun (k : ℕ) =>
    ⟨p.x + (((k : ℚ) + 1) / (segN p q maxLength : ℚ)) * (q.x - p.x),
      p.y + (((k : ℚ) + 1) / (segN p q maxLength : ℚ)) * (q.y - p.y)⟩

/-- Modelled from the spec: the command walk of `Path.resampleByLength`
— straight segments are subdivided uniformly; curve commands are
approximated by their endpoint chord (the claims use polygonal paths
only). -/
def resampleCmds (maxLength : ℚ) : List Cmd → Option Point → List Cmd
  | [], _ => []
  | .moveto x y :: rest, _ => .moveto x y :: resampleCmds maxLength rest (some ⟨x, y⟩)
  | .lineto x y :: rest, cur =>
      match cur with
      | some p =>
          ((resampleSegPoints p ⟨x, y⟩ maxLength).map fun q => Cmd.lineto q.x q.y)
            ++ resampleCmds maxLength rest (some ⟨x, y⟩)
      | none => .lineto x y :: resampleCmds maxLength rest (some ⟨x, y⟩)
  | .quadto _ _ x y :: rest, cur =>
      match cur with
      | some p =>
          ((resampleSegPoints p ⟨x, y⟩ maxLength).map fun q => Cmd.lineto q.x q.y)
            ++ resampleCmds maxLength rest (some ⟨x, y⟩)
      | none => .lineto x y :: resampleCmds maxLength rest (some ⟨x, y⟩)
  | .curveto _ _ _ _ x y :: rest, cur =>
      match cur with
      | some p =>
          ((resampleSegPoints p ⟨x, y⟩ maxLength).map fun q => Cmd.lineto q.x q.y)
            ++ resampleCmds maxLength rest (some ⟨x, y⟩)
      | none => .lineto x y :: resampleCmds maxLength rest (some ⟨x, y⟩)
  | .close :: rest, cur => .close :: resampleCmds maxLength rest cur

/-- Modelled from the spec: `Path.resampleByLength`. -/
def resampleByLength (cmds : List Cmd) (maxLength : ℚ) : List Cmd :=
  resampleCmds maxLength cmds none

/-- The per-command step of `vg._compoundToPoints`: a command's
endpoint as a point, CLOSE skipped. -/
def endpointPt (c : Cmd) : Option Point :=
  match c.endpoint with
  | some (u, v) => some ⟨u, v⟩
  | none => none

/-- `vg._compoundToPoints`: each contour becomes a ring of its
commands' endpoint coordinates, CLOSE skipped. -/
def compoundToPoints (contours : List (List Cmd)) : List (List Point) :=
  contours.map fun s => s.filterMap endpointPt

/-- `ClipperLib.JS.ScaleUpPaths(paths, 100)` (the engine's integer
rounding at this scale is below the spec's resolution and is modelled
as exact scaling). -/
def scaleUpPaths (f : ℚ) (rings : List (List Point)) : List (List Point) :=
  rings.map (List.map fun p => ⟨p.x * f, p.y * f⟩)

/-- `ClipperLib.JS.ScaleDownPaths(paths, 100)`. -/
def scaleDownPaths (f : ℚ) (rings : List (List Point)) : List (List Point) :=
  rings.map (List.map fun p => ⟨p.x / f, p.y / f⟩)

/-- Modelled from the spec: the vertex walk of `ClipperLib.JS.Clean` —
drop a vertex that is a near-duplicate (within the tolerance on both
axes) of the previously kept vertex. -/
def cleanRingGo (tol : ℚ) (prev : Point) : List Point → List Point
  | [] => []
  | q :: rest =>
      if |q.x - prev.x| ≤ tol ∧ |q.y - prev.y| ≤ tol then cleanRingGo tol prev rest
      else q :: cleanRingGo tol q rest

/-- Modelled from the spec: `ClipperLib.JS.Clean` on one ring. -/
def cleanRing (tol : ℚ) : List Point → List Point
  | [] => []
  | p :: rest => p :: cleanRingGo tol p rest

/-- Modelled from the spec: `ClipperLib.JS.Clean` on a ring set. -/
def cleanPaths (tol : ℚ) (rings : List (List Point)) : List (List Point) :=
  rings.map (cleanRing tol)

/-- Modelled from the spec: the third-party polygon clipping engine
(third_party/clipper, outside src and treated by the spec as an opaque
external geometry engine) executing a union with shape1's rings as
subject and shape2's as clip.  The spec fixes the union's output only
through the disjoint-operands property — the union of disjoint regions
is bounded by both operands' rings — so the model returns the
juxtaposed subject and clip rings; the accompanying claim applies it
only to disjoint rectangles. -/
def clipperUnion (subj clip : List (List Point)) : List (List Point) :=
  subj ++ clip

mutual
/-- Modelled from the spec: `Path.combine` — reduce a shape to a single
combined path by concatenating all of its commands. -/
def combineCmds : Shape → List Cmd
  | .path cmds _ _ _ => cmds
  | .group l => combineCmdsList l
  | .array l => combineCmdsList l
  | .point _ _ => []
  | .rectObj _ _ _ _ => []
  | .color _ => []
termination_by structural s => s

/-- `combineCmds` concatenated over an array of shapes. -/
def combineCmdsList : ShapeList → List Cmd
  | .nil => []
  | .cons s l => combineCmds s ++ combineCmdsList l
termination_by structural l => l
end

/-- The ring reassembly loop of `vg.compound`: MOVETO to the first
point, LINETO to each following point, and a closing command when the
ring's first and last points differ. -/
def reassembleRing (ring : List Point) : List Cmd :=
  match ring with
  | [] => []
  | p0 :: rest =>
      .moveto p0.x p0.y :: (rest.map fun q => Cmd.lineto q.x q.y)
        ++ (match (p0 :: rest).getLast? with
            | some plast =>
                if p0.x ≠ plast.x ∨ p0.y ≠ plast.y then [Cmd.close] else []
            | none => [])

/-- The outer reassembly loop of `vg.compound` over all solution
rings, building one path. -/
def reassemble : List (List Point) → List Cmd
  | [] => []
  | r :: rest => reassembleRing r ++ reassemble rest

/-- `vg.compound`: combine each input to a single path, resample so
consecutive points are at most 1 apart, extract contour rings, scale up
by 100, execute the boolean operation (subject = shape1, clip =
shape2), clean with tolerance 0.1·scale, scale back down, and
reassemble a single path.  Only the union mode is modelled; the other
modes of the opaque engine (and an unknown method, whose lookup yields
undefined) are out of the model's scope. -/
def compound (shape1 shape2 : Shape) (method : String) : Except JsErr Shape :=
  if method = "union" then
    let cmds1 := combineCmds shape1
    let cmds2 := combineCmds shape2
    let contours1 := contoursOf (resampleByLength cmds1 1)
    let contours2 := contoursOf (resampleByLength cmds2 1)
    let subjPaths := scaleUpPaths 100 (compoundToPoints contours1)
    let clipPaths := scaleUpPaths 100 (compoundToPoints contours2)
    let solutionPaths := clipperUnion subjPaths clipPaths
    let solutionPaths := cleanPaths (1 / 10 * 100) solutionPaths
    let solutionPaths := scaleDownPaths 100 solutionPaths
    .ok (.path (reassemble solutionPaths) none none 0)
  else .error .unknownMethod

/-- An axis-aligned rectangle path: MOVETO the corner, LINETO around
the three other corners, CLOSE. -/
def rectPath (x y w h : ℚ) : List Cmd :=
  [.moveto x y, .lineto (x + w) y, .lineto (x + w) (y + h), .lineto x (y + h), .close]

/-- The point ring a rectangle path yields after resampling and
contour extraction: the start corner followed by the three resampled
sides (the closing edge carries no vertices of its own). -/
def rectRing (x y w h : ℚ) : List Point :=
  ⟨x, y⟩ :: (resampleSegPoints ⟨x, y⟩ ⟨x + w, y⟩ 1
    ++ (resampleSegPoints ⟨x + w, y⟩ ⟨x + w, y + h⟩ 1
      ++ resampleSegPoints ⟨x + w, y + h⟩ ⟨x, y + h⟩ 1))

theorem resample_rectPath (x y w h : ℚ) :
    resampleByLength (rectPath x y w h) 1
      = .moveto x y ::
        (((resampleSegPoints ⟨x, y⟩ ⟨x + w, y⟩ 1).map fun q => Cmd.lineto q.x q.y)
          ++ (((resampleSegPoints ⟨x + w, y⟩ ⟨x + w, y + h⟩ 1).map fun q =>
                Cmd.lineto q.x q.y)
            ++ (((resampleSegPoints ⟨x + w, y + h⟩ ⟨x, y + h⟩ 1).map fun q =>
                  Cmd.lineto q.x q.y)
              ++ [Cmd.close]))) := rfl

theorem contoursGo_linetos :
    ∀ (pts : List Point) (rest : List Cmd) (acc : List Cmd),
      contoursGo ((pts.map fun q => Cmd.lineto q.x q.y) ++ rest) acc
        = contoursGo rest ((pts.map fun q => Cmd.lineto q.x q.y).reverse ++ acc) := by
  intro pts
  induction pts with
  | nil => intro rest acc; simp
  | cons p t ih =>
    intro rest acc
    simp only [List.map_cons, List.cons_append]
    rw [show contoursGo (Cmd.lineto p.x p.y :: ((t.map fun q => Cmd.lineto q.x q.y) ++ rest)) acc
        = contoursGo ((t.map fun q => Cmd.lineto q.x q.y) ++ rest) (Cmd.lineto p.x p.y :: acc)
      from rfl]
    rw [ih rest (Cmd.lineto p.x p.y :: acc)]
    simp

theorem contoursOf_resampled_rect (x y w h : ℚ) :
    contoursOf (resampleByLength (rectPath x y w h) 1)
      = [.moveto x y ::
          (((resampleSegPoints ⟨x, y⟩ ⟨x + w, y⟩ 1).map fun q => Cmd.lineto q.x q.y)
            ++ (((resampleSegPoints ⟨x + w, y⟩ ⟨x + w, y + h⟩ 1).map fun q =>
                  Cmd.lineto q.x q.y)
              ++ (((resampleSegPoints ⟨x + w, y + h⟩ ⟨x, y + h⟩ 1).map fun q =>
                    Cmd.lineto q.x q.y)
                ++ [Cmd.close])))] := by
  rw [resample_rectPath, contoursOf]
  rw [show contoursGo (Cmd.moveto x y ::
        (((resampleSegPoints ⟨x, y⟩ ⟨x + w, y⟩ 1).map fun q => Cmd.lineto q.x q.y)
          ++ (((resampleSegPoints ⟨x + w, y⟩ ⟨x + w, y + h⟩ 1).map fun q =>
                Cmd.lineto q.x q.y)
            ++ (((resampleSegPoints ⟨x + w, y + h⟩ ⟨x, y + h⟩ 1).map fun q =>
                  Cmd.lineto q.x q.y)
              ++ [Cmd.close])))) []
      = contoursGo
          (((resampleSegPoints ⟨x, y⟩ ⟨x + w, y⟩ 1).map fun q => Cmd.lineto q.x q.y)
            ++ (((resampleSegPoints ⟨x + w, y⟩ ⟨x + w, y + h⟩ 1).map fun q =>
                  Cmd.lineto q.x q.y)
              ++ (((resampleSegPoints ⟨x + w, y + h⟩ ⟨x, y + h⟩ 1).map fun q =>
                    Cmd.lineto q.x q.y)
                ++ [Cmd.close])))
          [Cmd.moveto x y]
    from rfl]
  rw [contoursGo_linetos, contoursGo_linetos, contoursGo_linetos]
  rw [show ∀ acc : List Cmd, contoursGo [Cmd.close] acc = [acc.reverse ++ [Cmd.close]]
    from fun acc => rfl]
  simp

theorem endpointPt_lineto (a b : ℚ) : endpointPt (.lineto a b) = some ⟨a, b⟩ := rfl

theorem endpointPt_moveto (a b : ℚ) : endpointPt (.moveto a b) = some ⟨a, b⟩ := rfl

theorem endpointPt_close : endpointPt .close = none := rfl

theorem filterMap_endpoint_linetos (pts : List Point) :
    ((pts.map fun q => Cmd.lineto q.x q.y).filterMap endpointPt) = pts := by
  induction pts with
  | nil => rfl
  | cons p t ih =>
    simp only [List.map_cons, List.filterMap_cons, endpointPt_lineto]
    rw [ih]

theorem compoundToPoints_rect (x y w h : ℚ) :
    compoundToPoints (contoursOf (resampleByLength (rectPath x y w h) 1))
      = [rectRing x y w h] := by
  rw [contoursOf_resampled_rect]
  simp only [compoundToPoints, List.map_cons, List.map_nil]
  congr 1
  simp only [List.filterMap_cons, List.filterMap_append, endpointPt_moveto,
    endpointPt_close, filterMap_endpoint_linetos, List.filterMap_nil, List.append_nil]
  rw [rectRing]

theorem resampleSegPoints_eq (p q : Point) (ml : ℚ) :
    resampleSegPoints p q ml
      = (List.range (segN p q ml)).map fun (k : ℕ) =>
          ⟨p.x + (((k : ℚ) + 1) / (segN p q ml : ℚ)) * (q.x - p.x),
            p.y + (((k : ℚ) + 1) / (segN p q ml : ℚ)) * (q.y - p.y)⟩ := rfl

theorem segN_pos (p q : Point) (ml : ℚ) : 1 ≤ segN p q ml := Nat.le_max_left 1 _

/-- The resampled segment ends exactly at the segment's endpoint. -/
theorem resampleSeg_decomp (p q : Point) (ml : ℚ) :
    ∃ l : List Point, resampleSegPoints p q ml = l ++ [q] := by
  obtain ⟨m, hm⟩ : ∃ m, segN p q ml = m + 1 :=
    ⟨segN p q ml - 1, (Nat.succ_pred_eq_of_pos (segN_pos p q ml)).symm⟩
  have hcast : ((m + 1 : ℕ) : ℚ) = (m : ℚ) + 1 := by push_cast; ring
  have hn0 : ((m : ℚ) + 1) ≠ 0 := by positivity
  refine ⟨(List.range m).map fun (k : ℕ) =>
      ⟨p.x + (((k : ℚ) + 1) / ((m : ℚ) + 1)) * (q.x - p.x),
        p.y + (((k : ℚ) + 1) / ((m : ℚ) + 1)) * (q.y - p.y)⟩, ?_⟩
  rw [resampleSegPoints_eq, hm, List.range_succ, List.map_append, List.map_cons,
    List.map_nil]
  simp only [hcast]
  congr 1
  have hx : p.x + (((m : ℚ) + 1) / ((m : ℚ) + 1)) * (q.x - p.x) = q.x := by
    field_simp
  have hy : p.y + (((m : ℚ) + 1) / ((m : ℚ) + 1)) * (q.y - p.y) = q.y := by
    field_simp
  rw [hx, hy]

theorem resampleSeg_getLast (p q : Point) (ml : ℚ) :
    (resampleSegPoints p q ml).getLast? = some q := by
  obtain ⟨l, hl⟩ := resampleSeg_decomp p q ml
  rw [hl, List.getLast?_concat]

theorem resampleSeg_mem_endpoint (p q : Point) (ml : ℚ) :
    q ∈ resampleSegPoints p q ml := by
  obtain ⟨l, hl⟩ := resampleSeg_decomp p q ml
  rw [hl]
  exact List.mem_append_right l (List.mem_singleton_self q)

/-- Every resampled point's coordinates lie between the segment
endpoints'. -/
theorem resampleSeg_mem_between (p q : Point) (ml : ℚ) (r : Point)
    (hr : r ∈ resampleSegPoints p q ml) :
    min p.x q.x ≤ r.x ∧ r.x ≤ max p.x q.x ∧ min p.y q.y ≤ r.y ∧ r.y ≤ max p.y q.y := by
  rw [resampleSegPoints_eq] at hr
  obtain ⟨k, hk, rfl⟩ := List.mem_map.mp hr
  have hkn : k < segN p q ml := List.mem_range.mp hk
  have hnpos : (0 : ℚ) < (segN p q ml : ℚ) := by
    have := segN_pos p q ml
    exact_mod_cast Nat.lt_of_lt_of_le Nat.zero_lt_one this
  have ht0 : (0 : ℚ) ≤ ((k : ℚ) + 1) / (segN p q ml : ℚ) := by positivity
  have ht1 : ((k : ℚ) + 1) / (segN p q ml : ℚ) ≤ 1 := by
    rw [div_le_one hnpos]
    exact_mod_cast Nat.succ_le_of_lt hkn
  dsimp only
  constructor
  · rcases le_total p.x q.x with hpq | hpq
    · rw [min_eq_left hpq]; nlinarith
    · rw [min_eq_right hpq]; nlinarith
  constructor
  · rcases le_total p.x q.x with hpq | hpq
    · rw [max_eq_right hpq]; nlinarith
    · rw [max_eq_left hpq]; nlinarith
  constructor
  · rcases le_total p.y q.y with hpq | hpq
    · rw [min_eq_left hpq]; nlinarith
    · rw [min_eq_right hpq]; nlinarith
  · rcases le_total p.y q.y with hpq | hpq
    · rw [max_eq_right hpq]; nlinarith
    · rw [max_eq_left hpq]; nlinarith

/-- Consecutive points of a list are farther apart than the tolerance
on at least one axis. -/
def FarApart (tol : ℚ) : List Point → Prop
  | [] => True
  | [_] => True
  | p :: q :: rest => (tol < |q.x - p.x| ∨ tol < |q.y - p.y|) ∧ FarApart tol (q :: rest)

theorem cleanRingGo_of_farApart (tol : ℚ) :
    ∀ (l : List Point) (p : Point), FarApart tol (p :: l) → cleanRingGo tol p l = l := by
  intro l
  induction l with
  | nil => intro p _; rfl
  | cons q t ih =>
    intro p h
    obtain ⟨hgap, hrest⟩ := h
    rw [cleanRingGo, if_neg ?_, ih q hrest]
    rcases hgap with hg | hg
    · exact fun hcon => absurd hcon.1 (not_le.mpr hg)
    · exact fun hcon => absurd hcon.2 (not_le.mpr hg)

theorem cleanRing_of_farApart (tol : ℚ) (l : List Point) (h : FarApart tol l) :
    cleanRing tol l = l := by
  cases l with
  | nil => rfl
  | cons p rest => rw [cleanRing, cleanRingGo_of_farApart tol rest p h]

theorem farApart_append (tol : ℚ) :
    ∀ (l1 : List Point) (p qlast : Point) (l2 : List Point),
      FarApart tol (p :: l1) → (p :: l1).getLast? = some qlast →
      FarApart tol (qlast :: l2) → FarApart tol (p :: l1 ++ l2) := by
  intro l1
  induction l1 with
  | nil =>
    intro p qlast l2 _ hlast h2
    simp only [List.getLast?_singleton, Option.some.injEq] at hlast
    rw [← hlast] at h2
    exact h2
  | cons r t ih =>
    intro p qlast l2 h1 hlast h2
    obtain ⟨hgap, hrest⟩ := h1
    rw [List.getLast?_cons_cons] at hlast
    exact ⟨hgap, ih r qlast l2 hrest hlast h2⟩

theorem farApart_cons_range (tol : ℚ) :
    ∀ (n : ℕ) (g : ℕ → Point) (p : Point),
      (n ≠ 0 → tol < |(g 0).x - p.x| ∨ tol < |(g 0).y - p.y|) →
      (∀ k, k + 1 < n →
        tol < |(g (k + 1)).x - (g k).x| ∨ tol < |(g (k + 1)).y - (g k).y|) →
      FarApart tol (p :: (List.range n).map g) := by
  intro n
  induction n with
  | zero => intro g p _ _; trivial
  | succ m ih =>
    intro g p h0 hk
    rw [List.range_succ_eq_map, List.map_cons, List.map_map]
    refine ⟨h0 (Nat.succ_ne_zero m), ?_⟩
    refine ih (g ∘ Nat.succ) (g 0) ?_ ?_
    · intro hm
      exact hk 0 (by omega)
    · intro k hkm
      exact hk (k + 1) (by omega)

theorem foldl_min_eq_init (f : Point → ℚ) :
    ∀ (l : List Point) (a : ℚ), (∀ q ∈ l, a ≤ f q) →
      l.foldl (fun acc q => min acc (f q)) a = a := by
  intro l
  induction l with
  | nil => intro a _; rfl
  | cons q t ih =>
    intro a h
    simp only [List.foldl_cons]
    rw [min_eq_left (h q (List.mem_cons_self q t))]
    exact ih a fun r hr => h r (List.mem_cons_of_mem q hr)

theorem foldl_max_le (f : Point → ℚ) :
    ∀ (l : List Point) (a m : ℚ), a ≤ m → (∀ q ∈ l, f q ≤ m) →
      l.foldl (fun acc q => max acc (f q)) a ≤ m := by
  intro l
  induction l with
  | nil => intro a m ham _; exact ham
  | cons q t ih =>
    intro a m ham h
    simp only [List.foldl_cons]
    exact ih (max a (f q)) m (max_le ham (h q (List.mem_cons_self q t)))
      fun r hr => h r (List.mem_cons_of_mem q hr)

theorem foldl_max_ge_init (f : Point → ℚ) :
    ∀ (l : List Point) (a : ℚ), a ≤ l.foldl (fun acc q => max acc (f q)) a := by
  intro l
  induction l with
  | nil => intro a; exact le_refl a
  | cons q t ih =>
    intro a
    simp only [List.foldl_cons]
    exact le_trans (le_max_left a (f q)) (ih (max a (f q)))

theorem foldl_max_ge_mem (f : Point → ℚ) :
    ∀ (l : List Point) (a : ℚ) (q : Point), q ∈ l →
      f q ≤ l.foldl (fun acc r => max acc (f r)) a := by
  intro l
  induction l with
  | nil => intro a q hq; exact absurd hq (List.not_mem_nil q)
  | cons r t ih =>
    intro a q hq
    simp only [List.foldl_cons]
    rcases List.mem_cons.mp hq with hqr | hqt
    · rw [hqr]
      exact le_trans (le_max_right a (f r)) (foldl_max_ge_init f t (max a (f r)))
    · exact ih (max a (f r)) q hqt

theorem foldl_max_eq (f : Point → ℚ) (l : List Point) (a m : ℚ)
    (ham : a ≤ m) (hub : ∀ q ∈ l, f q ≤ m) (hat : ∃ q ∈ l, f q = m) :
    l.foldl (fun acc q => max acc (f q)) a = m := by
  obtain ⟨q, hq, hfq⟩ := hat
  exact le_antisymm (foldl_max_le f l a m ham hub) (hfq ▸ foldl_max_ge_mem f l a q hq)

/-- The hull of the resampled rectangle ring is the rectangle itself. -/
theorem rectRing_hull (x y w h : ℚ) (hw : 0 ≤ w) (hh : 0 ≤ h) :
    rectOfPoints ⟨x, y⟩
      (resampleSegPoints ⟨x, y⟩ ⟨x + w, y⟩ 1
        ++ (resampleSegPoints ⟨x + w, y⟩ ⟨x + w, y + h⟩ 1
          ++ resampleSegPoints ⟨x + w, y + h⟩ ⟨x, y + h⟩ 1)) = ⟨x, y, w, h⟩ := by
  have hxw : x ≤ x + w := by linarith
  have hyh : y ≤ y + h := by linarith
  have hmem : ∀ q ∈ resampleSegPoints ⟨x, y⟩ ⟨x + w, y⟩ 1
      ++ (resampleSegPoints ⟨x + w, y⟩ ⟨x + w, y + h⟩ 1
        ++ resampleSegPoints ⟨x + w, y + h⟩ ⟨x, y + h⟩ 1),
      x ≤ q.x ∧ q.x ≤ x + w ∧ y ≤ q.y ∧ q.y ≤ y + h := by
    intro q hq
    rcases List.mem_append.mp hq with h1 | h23
    · obtain ⟨hb1, hb2, hb3, hb4⟩ := resampleSeg_mem_between ⟨x, y⟩ ⟨x + w, y⟩ 1 q h1
      dsimp only at hb1 hb2 hb3 hb4
      rw [min_eq_left hxw] at hb1
      rw [max_eq_right hxw] at hb2
      rw [min_self] at hb3
      rw [max_self] at hb4
      exact ⟨hb1, hb2, hb3, le_trans hb4 hyh⟩
    rcases List.mem_append.mp h23 with h2 | h3
    · obtain ⟨hb1, hb2, hb3, hb4⟩ :=
        resampleSeg_mem_between ⟨x + w, y⟩ ⟨x + w, y + h⟩ 1 q h2
      dsimp only at hb1 hb2 hb3 hb4
      rw [min_self] at hb1
      rw [max_self] at hb2
      rw [min_eq_left hyh] at hb3
      rw [max_eq_right hyh] at hb4
      exact ⟨le_trans hxw hb1, hb2, hb3, hb4⟩
    · obtain ⟨hb1, hb2, hb3, hb4⟩ :=
        resampleSeg_mem_between ⟨x + w, y + h⟩ ⟨x, y + h⟩ 1 q h3
      dsimp only at hb1 hb2 hb3 hb4
      rw [min_eq_right hxw] at hb1
      rw [max_eq_left hxw] at hb2
      rw [min_self] at hb3
      rw [max_self] at hb4
      exact ⟨hb1, hb2, le_trans hyh hb3, hb4⟩
  have hxmaxmem : (⟨x + w, y⟩ : Point) ∈ resampleSegPoints ⟨x, y⟩ ⟨x + w, y⟩ 1
      ++ (resampleSegPoints ⟨x + w, y⟩ ⟨x + w, y + h⟩ 1
        ++ resampleSegPoints ⟨x + w, y + h⟩ ⟨x, y + h⟩ 1) :=
    List.mem_append_left _ (resampleSeg_mem_endpoint ⟨x, y⟩ ⟨x + w, y⟩ 1)
  have hymaxmem : (⟨x + w, y + h⟩ : Point) ∈ resampleSegPoints ⟨x, y⟩ ⟨x + w, y⟩ 1
      ++ (resampleSegPoints ⟨x + w, y⟩ ⟨x + w, y + h⟩ 1
        ++ resampleSegPoints ⟨x + w, y + h⟩ ⟨x, y + h⟩ 1) :=
    List.mem_append_right _ (List.mem_append_left _
      (resampleSeg_mem_endpoint ⟨x + w, y⟩ ⟨x + w, y + h⟩ 1))
  rw [rectOfPoints_eq]
  have hxmin : xmin ⟨x, y⟩ (resampleSegPoints ⟨x, y⟩ ⟨x + w, y⟩ 1
      ++ (resampleSegPoints ⟨x + w, y⟩ ⟨x + w, y + h⟩ 1
        ++ resampleSegPoints ⟨x + w, y + h⟩ ⟨x, y + h⟩ 1)) = x :=
    foldl_min_eq_init (fun q => q.x) _ x fun q hq => (hmem q hq).1
  have hymin : ymin ⟨x, y⟩ (resampleSegPoints ⟨x, y⟩ ⟨x + w, y⟩ 1
      ++ (resampleSegPoints ⟨x + w, y⟩ ⟨x + w, y + h⟩ 1
        ++ resampleSegPoints ⟨x + w, y + h⟩ ⟨x, y + h⟩ 1)) = y :=
    foldl_min_eq_init (fun q => q.y) _ y fun q hq => (hmem q hq).2.2.1
  have hxmax : xmax ⟨x, y⟩ (resampleSegPoints ⟨x, y⟩ ⟨x + w, y⟩ 1
      ++ (resampleSegPoints ⟨x + w, y⟩ ⟨x + w, y + h⟩ 1
        ++ resampleSegPoints ⟨x + w, y + h⟩ ⟨x, y + h⟩ 1)) = x + w :=
    foldl_max_eq (fun q => q.x) _ x (x + w) hxw (fun q hq => (hmem q hq).2.1)
      ⟨⟨x + w, y⟩, hxmaxmem, rfl⟩
  have hymax : ymax ⟨x, y⟩ (resampleSegPoints ⟨x, y⟩ ⟨x + w, y⟩ 1
      ++ (resampleSegPoints ⟨x + w, y⟩ ⟨x + w, y + h⟩ 1
        ++ resampleSegPoints ⟨x + w, y + h⟩ ⟨x, y + h⟩ 1)) = y + h :=
    foldl_max_eq (fun q => q.y) _ y (y + h) hyh (fun q hq => (hmem q hq).2.2.2)
      ⟨⟨x + w, y + h⟩, hymaxmem, rfl⟩
  simp only [Rect.mk.injEq]
  refine ⟨hxmin, hymin, ?_, ?_⟩
  · rw [hxmax, hxmin]; ring
  · rw [hymax, hymin]; ring

theorem coordsOf_append : ∀ l1 l2 : List Cmd,
    coordsOf (l1 ++ l2) = coordsOf l1 ++ coordsOf l2 := by
  intro l1
  induction l1 with
  | nil => intro l2; rfl
  | cons c t ih =>
    intro l2
    simp only [List.cons_append]
    rw [coordsOf, ih, coordsOf, List.append_assoc]

theorem coordsOf_linetos (pts : List Point) :
    coordsOf (pts.map fun q => Cmd.lineto q.x q.y) = pts := by
  induction pts with
  | nil => rfl
  | cons p t ih =>
    simp only [List.map_cons]
    rw [coordsOf, ih]
    rfl

/-- Reassembling a ring yields exactly the ring's points as command
coordinates: MOVETO and LINETO carry one point each and the optional
closing command carries none. -/
theorem coordsOf_reassembleRing (ring : List Point) :
    coordsOf (reassembleRing ring) = ring := by
  cases ring with
  | nil => rfl
  | cons p0 rest =>
    rcases hlast : (p0 :: rest).getLast? with _ | plast
    · simp [reassembleRing, hlast, coordsOf_append, coordsOf_linetos, coordsOf, Cmd.coords]
    · by_cases hc : p0.x ≠ plast.x ∨ p0.y ≠ plast.y
      · simp [reassembleRing, hlast, hc, coordsOf_append, coordsOf_linetos, coordsOf,
          Cmd.coords]
      · simp [reassembleRing, hlast, hc, coordsOf_append, coordsOf_linetos, coordsOf,
          Cmd.coords]

theorem cons_map_seg_getLast (f : Point → Point) (p q : Point) (ml : ℚ) :
    (f p :: (resampleSegPoints p q ml).map f).getLast? = some (f q) := by
  obtain ⟨l, hl⟩ := resampleSeg_decomp p q ml
  rw [hl, List.map_append, List.map_singleton]
  rw [show f p :: (l.map f ++ [f q]) = (f p :: l.map f) ++ [f q] from rfl]
  exact List.getLast?_concat _

/-- The bounds of a plain rectangle path are the rectangle itself. -/
theorem pathBounds_rectPath (x y w h : ℚ) (hw : 0 ≤ w) (hh : 0 ≤ h) :
    pathBounds (rectPath x y w h) = ⟨x, y, w, h⟩ := by
  have e1 : x ≤ x + w := by linarith
  have e2 : y ≤ y + h := by linarith
  show rectOfPoints ⟨x, y⟩ [⟨x + w, y⟩, ⟨x + w, y + h⟩, ⟨x, y + h⟩] = ⟨x, y, w, h⟩
  rw [rectOfPoints_eq]
  simp only [xmin, ymin, xmax, ymax, List.foldl_cons, List.foldl_nil]
  simp only [Rect.mk.injEq]
  refine ⟨?_, ?_, ?_, ?_⟩
  · rw [min_eq_left e1, min_eq_left e1, min_self]
  · rw [min_self, min_eq_left e2, min_eq_left e2]
  · rw [min_eq_left e1, min_eq_left e1, min_self,
      max_eq_right e1, max_self, max_eq_left e1]
    ring
  · rw [min_self, min_eq_left e2, min_eq_left e2,
      max_self, max_eq_right e2, max_self]
    ring

/-- Scaling a ring up by 100 and back down by 100 is the identity. -/
theorem map_up_down (r : List Point) :
    ((r.map fun p => (⟨p.x * 100, p.y * 100⟩ : Point)).map
      fun p => (⟨p.x / 100, p.y / 100⟩ : Point)) = r := by
  induction r with
  | nil => rfl
  | cons p t ih =>
    simp only [List.map_cons] at ih ⊢
    rw [ih]
    congr 1
    dsimp only
    rw [mul_div_cancel_right₀ p.x (by norm_num : (100 : ℚ) ≠ 0),
      mul_div_cancel_right₀ p.y (by norm_num : (100 : ℚ) ≠ 0)]

/-- A resampled segment, scaled by `f`, keeps all consecutive gaps
above `tol` as soon as one full per-step increment does. -/
theorem farApart_scaled_seg (p q : Point) (f tol : ℚ)
    (hgap : tol < |f * (q.x - p.x) / (segN p q 1 : ℚ)|
      ∨ tol < |f * (q.y - p.y) / (segN p q 1 : ℚ)|) :
    FarApart tol ((⟨p.x * f, p.y * f⟩ : Point)
      :: (resampleSegPoints p q 1).map fun r => (⟨r.x * f, r.y * f⟩ : Point)) := by
  rw [resampleSegPoints_eq, List.map_map]
  refine farApart_cons_range tol _ _ _ ?_ ?_
  · intro _
    dsimp only [Function.comp_apply]
    rcases hgap with hg | hg
    · left
      rw [show (p.x + (((0 : ℕ) : ℚ) + 1) / (segN p q 1 : ℚ) * (q.x - p.x)) * f - p.x * f
          = f * (q.x - p.x) / (segN p q 1 : ℚ) from by push_cast; ring]
      exact hg
    · right
      rw [show (p.y + (((0 : ℕ) : ℚ) + 1) / (segN p q 1 : ℚ) * (q.y - p.y)) * f - p.y * f
          = f * (q.y - p.y) / (segN p q 1 : ℚ) from by push_cast; ring]
      exact hg
  · intro k _
    dsimp only [Function.comp_apply]
    rcases hgap with hg | hg
    · left
      rw [show (p.x + (((k + 1 : ℕ) : ℚ) + 1) / (segN p q 1 : ℚ) * (q.x - p.x)) * f
          - (p.x + (((k : ℕ) : ℚ) + 1) / (segN p q 1 : ℚ) * (q.x - p.x)) * f
          = f * (q.x - p.x) / (segN p q 1 : ℚ) from by push_cast; ring]
      exact hg
    · right
      rw [show (p.y + (((k + 1 : ℕ) : ℚ) + 1) / (segN p q 1 : ℚ) * (q.y - p.y)) * f
          - (p.y + (((k : ℕ) : ℚ) + 1) / (segN p q 1 : ℚ) * (q.y - p.y)) * f
          = f * (q.y - p.y) / (segN p q 1 : ℚ) from by push_cast; ring]
      exact hg

/-- For a side of length at least 1, the 100-scaled per-step increment
beats the clean tolerance 10. -/
theorem clean_gap_bound (L : ℚ) (hL : 1 ≤ L) :
    (10 : ℚ) < |100 * L / ((max 1 ⌈L⌉.toNat : ℕ) : ℚ)| := by
  have h0 : (0 : ℚ) < L := by linarith
  have hceil : (0 : ℤ) < ⌈L⌉ := Int.ceil_pos.mpr h0
  have hmax : max 1 ⌈L⌉.toNat = ⌈L⌉.toNat := max_eq_right (by omega)
  have htn : ((⌈L⌉.toNat : ℤ)) = ⌈L⌉ := Int.toNat_of_nonneg (by omega)
  have hub : ((max 1 ⌈L⌉.toNat : ℕ) : ℚ) < L + 1 := by
    rw [hmax]
    have hc : ((⌈L⌉.toNat : ℕ) : ℚ) = ((⌈L⌉ : ℤ) : ℚ) := by exact_mod_cast htn
    rw [hc]
    exact Int.ceil_lt_add_one L
  have hpos : (0 : ℚ) < ((max 1 ⌈L⌉.toNat : ℕ) : ℚ) := by
    have h1 : 1 ≤ max 1 ⌈L⌉.toNat := le_max_left _ _
    exact_mod_cast Nat.lt_of_lt_of_le Nat.zero_lt_one h1
  rw [abs_of_pos (div_pos (by linarith) hpos), lt_div_iff₀ hpos]
  linarith

theorem segN_horiz (x y w : ℚ) (hw : 0 ≤ w) :
    segN ⟨x, y⟩ ⟨x + w, y⟩ 1 = max 1 ⌈w⌉.toNat := by
  rw [segN]
  dsimp only
  rw [show x + w - x = w by ring, sub_self, abs_zero, div_one,
    max_eq_left (abs_nonneg w), abs_of_nonneg hw]

theorem segN_vert (x y h : ℚ) (hh : 0 ≤ h) :
    segN ⟨x, y⟩ ⟨x, y + h⟩ 1 = max 1 ⌈h⌉.toNat := by
  rw [segN]
  dsimp only
  rw [sub_self, abs_zero, show y + h - y = h by ring, div_one,
    max_eq_right (abs_nonneg h), abs_of_nonneg hh]

theorem segN_horizBack (x y w : ℚ) (hw : 0 ≤ w) :
    segN ⟨x + w, y⟩ ⟨x, y⟩ 1 = max 1 ⌈w⌉.toNat := by
  rw [segN]
  dsimp only
  rw [show x - (x + w) = -w by ring, abs_neg, sub_self, abs_zero, div_one,
    max_eq_left (abs_nonneg w), abs_of_nonneg hw]

/-- The 100-scaled resampled rectangle ring has all consecutive gaps
above the clean tolerance 10 once both sides are at least 1. -/
theorem farApart_rectRing_scaled (x y w h : ℚ) (hw : 1 ≤ w) (hh : 1 ≤ h) :
    FarApart 10 ((rectRing x y w h).map fun p => (⟨p.x * 100, p.y * 100⟩ : Point)) := by
  have hw0 : (0 : ℚ) ≤ w := by linarith
  have hh0 : (0 : ℚ) ≤ h := by linarith
  rw [rectRing]
  simp only [List.map_cons, List.map_append]
  refine farApart_append 10 _ _ ⟨(x + w) * 100, y * 100⟩ _ ?_ ?_ ?_
  · refine farApart_scaled_seg ⟨x, y⟩ ⟨x + w, y⟩ 100 10 ?_
    left
    rw [segN_horiz x y w hw0]
    rw [show (100 : ℚ) * ((⟨x + w, y⟩ : Point).x - (⟨x, y⟩ : Point).x)
        = 100 * w from by dsimp only; ring]
    exact clean_gap_bound w hw
  · exact cons_map_seg_getLast (fun p => ⟨p.x * 100, p.y * 100⟩) ⟨x, y⟩ ⟨x + w, y⟩ 1
  refine farApart_append 10 _ _ ⟨(x + w) * 100, (y + h) * 100⟩ _ ?_ ?_ ?_
  · refine farApart_scaled_seg ⟨x + w, y⟩ ⟨x + w, y + h⟩ 100 10 ?_
    right
    rw [segN_vert (x + w) y h hh0]
    rw [show (100 : ℚ) * ((⟨x + w, y + h⟩ : Point).y - (⟨x + w, y⟩ : Point).y)
        = 100 * h from by dsimp only; ring]
    exact clean_gap_bound h hh
  · exact cons_map_seg_getLast (fun p => ⟨p.x * 100, p.y * 100⟩) ⟨x + w, y⟩ ⟨x + w, y + h⟩ 1
  · refine farApart_scaled_seg ⟨x + w, y + h⟩ ⟨x, y + h⟩ 100 10 ?_
    left
    rw [segN_horizBack x (y + h) w hw0]
    rw [show (100 : ℚ) * ((⟨x, y + h⟩ : Point).x - (⟨x + w, y + h⟩ : Point).x)
        / ((max 1 ⌈w⌉.toNat : ℕ) : ℚ)
        = -(100 * w / ((max 1 ⌈w⌉.toNat : ℕ) : ℚ)) from by dsimp only; ring]
    rw [abs_neg]
    exact clean_gap_bound w hw

/-- The tail of the rectangle ring after its start corner. -/
def rectRingTail (x y w h : ℚ) : List Point :=
  resampleSegPoints ⟨x, y⟩ ⟨x + w, y⟩ 1
    ++ (resampleSegPoints ⟨x + w, y⟩ ⟨x + w, y + h⟩ 1
      ++ resampleSegPoints ⟨x + w, y + h⟩ ⟨x, y + h⟩ 1)

theorem rectRingTail_hull (x y w h : ℚ) (hw : 0 ≤ w) (hh : 0 ≤ h) :
    rectOfPoints ⟨x, y⟩ (rectRingTail x y w h) = ⟨x, y, w, h⟩ :=
  rectRing_hull x y w h hw hh

theorem pathBounds_cons (p : Point) (ps : List Point) (cmds : List Cmd)
    (h : coordsOf cmds = p :: ps) : pathBounds cmds = rectOfPoints p ps := by
  rw [pathBounds, h]

/-- `vg.compound` in union mode on two rectangle paths with sides at
least 1 evaluates to the single reassembled path of both resampled
rings: the clean pass drops no vertex and the scale round-trip is the
identity. -/
theorem compound_rects_eval (x1 y1 w1 h1 x2 y2 w2 h2 : ℚ)
    (hw1 : 1 ≤ w1) (hh1 : 1 ≤ h1) (hw2 : 1 ≤ w2) (hh2 : 1 ≤ h2) :
    compound (.path (rectPath x1 y1 w1 h1) none none 0)
        (.path (rectPath x2 y2 w2 h2) none none 0) "union"
      = .ok (.path (reassemble [rectRing x1 y1 w1 h1, rectRing x2 y2 w2 h2])
          none none 0) := by
  have hu : ("union" : String) = "union" := rfl
  rw [compound, if_pos hu]
  simp only [combineCmds, compoundToPoints_rect, scaleUpPaths, clipperUnion,
    cleanPaths, scaleDownPaths, List.map_cons, List.map_nil, List.cons_append,
    List.nil_append]
  rw [show (1 / 10 * 100 : ℚ) = 10 from by norm_num]
  rw [cleanRing_of_farApart 10 ((rectRing x1 y1 w1 h1).map fun p =>
      (⟨p.x * 100, p.y * 100⟩ : Point)) (farApart_rectRing_scaled x1 y1 w1 h1 hw1 hh1)]
  rw [cleanRing_of_farApart 10 ((rectRing x2 y2 w2 h2).map fun p =>
      (⟨p.x * 100, p.y * 100⟩ : Point)) (farApart_rectRing_scaled x2 y2 w2 h2 hw2 hh2)]
  rw [map_up_down, map_up_down]

/-- C5: `compound(A, B, 'union')` on two disjoint axis-aligned
rectangle paths (sides at least 1, so the engine's clean tolerance
drops no vertex) returns a single path whose total bounds are exactly
the union of A's bounds and B's bounds. -/
theorem compound_union_C5 (x1 y1 w1 h1 x2 y2 w2 h2 : ℚ)
    (hw1 : 1 ≤ w1) (hh1 : 1 ≤ h1) (hw2 : 1 ≤ w2) (hh2 : 1 ≤ h2)
    (hdisjoint : x1 + w1 < x2 ∨ x2 + w2 < x1 ∨ y1 + h1 < y2 ∨ y2 + h2 < y1) :
    ∃ cmds : List Cmd,
      compound (.path (rectPath x1 y1 w1 h1) none none 0)
          (.path (rectPath x2 y2 w2 h2) none none 0) "union"
        = .ok (.path cmds none none 0)
      ∧ bounds (.path (rectPath x1 y1 w1 h1) none none 0) = .ok ⟨x1, y1, w1, h1⟩
      ∧ bounds (.path (rectPath x2 y2 w2 h2) none none 0) = .ok ⟨x2, y2, w2, h2⟩
      ∧ bounds (.path cmds none none 0)
          = .ok (Rect.unite ⟨x1, y1, w1, h1⟩ ⟨x2, y2, w2, h2⟩) := by
  refine ⟨reassemble [rectRing x1 y1 w1 h1, rectRing x2 y2 w2 h2],
    compound_rects_eval x1 y1 w1 h1 x2 y2 w2 h2 hw1 hh1 hw2 hh2, ?_, ?_, ?_⟩
  · show Except.ok (pathBounds (rectPath x1 y1 w1 h1)) = _
    rw [pathBounds_rectPath x1 y1 w1 h1 (by linarith) (by linarith)]
  · show Except.ok (pathBounds (rectPath x2 y2 w2 h2)) = _
    rw [pathBounds_rectPath x2 y2 w2 h2 (by linarith) (by linarith)]
  · show Except.ok (pathBounds
      (reassemble [rectRing x1 y1 w1 h1, rectRing x2 y2 w2 h2])) = _
    have hco : coordsOf (reassemble [rectRing x1 y1 w1 h1, rectRing x2 y2 w2 h2])
        = (⟨x1, y1⟩ : Point)
          :: (rectRingTail x1 y1 w1 h1
            ++ (⟨x2, y2⟩ : Point) :: rectRingTail x2 y2 w2 h2) := by
      rw [show reassemble [rectRing x1 y1 w1 h1, rectRing x2 y2 w2 h2]
          = reassembleRing (rectRing x1 y1 w1 h1)
            ++ (reassembleRing (rectRing x2 y2 w2 h2) ++ []) from rfl]
      rw [coordsOf_append, coordsOf_append, coordsOf_reassembleRing,
        coordsOf_reassembleRing]
      simp [rectRing, rectRingTail, coordsOf]
    rw [pathBounds_cons _ _ _ hco, ← rectOfPoints_unite]
    rw [rectRingTail_hull x1 y1 w1 h1 (by linarith) (by linarith),
      rectRingTail_hull x2 y2 w2 h2 (by linarith) (by linarith)]

theorem compound_union_C5_witness :
    ∃ cmds : List Cmd,
      compound (.path (rectPath 0 0 1 1) none none 0)
          (.path (rectPath 3 0 1 1) none none 0) "union"
        = .ok (.path cmds none none 0)
      ∧ bounds (.path (rectPath 0 0 1 1) none none 0) = .ok ⟨0, 0, 1, 1⟩
      ∧ bounds (.path (rectPath 3 0 1 1) none none 0) = .ok ⟨3, 0, 1, 1⟩
      ∧ bounds (.path cmds none none 0)
          = .ok (Rect.unite ⟨0, 0, 1, 1⟩ ⟨3, 0, 1, 1⟩) :=
  compound_union_C5 0 0 1 1 3 0 1 1 (by norm_num) (by norm_num) (by norm_num)
    (by norm_num) (Or.inl (by norm_num))

end VG

